import Mathlib

/-
  Verification development for the kitaplik file-manager mutation engine
  (src/gui/kitaplik.cpp, src/core/pathvalidator.cpp).

  The C++ engine is shallowly embedded over an explicit filesystem tree.
  Qt / OS behaviour that the code relies on is modelled explicitly:
    - QFileInfo::exists / isFile / isDir follow symbolic links (stat),
      QFileInfo::isSymLink does not (lstat);
    - path resolution follows symbolic links with the POSIX bound of 40
      link traversals;
    - QString::split('/'), QDir::cleanPath, QDir::filePath,
      QFileInfo::completeBaseName / completeSuffix are modelled char-wise;
    - file contents are modelled as strings (one char = one byte; all the
      concrete inputs used below are ASCII);
    - OS failures the engine branches on (rename, remove, write-open,
      read/write errors, writability) are injected through an explicit
      environment record `Env`;
    - mutating primitives address entries by their (already normalized)
      lexical path: the engine normalizes every destination before
      mutating, so mutation paths never traverse a symlink in the runs
      modelled here.
-/

namespace Kitaplik

/-- Split a character list at every occurrence of `sep`, keeping empty
parts, as QString::split does. -/
def splitOnCharAux (sep : Char) : List Char → List Char → List String
  | [], acc => [String.mk acc.reverse]
  | c :: rest, acc =>
    if c = sep then String.mk acc.reverse :: splitOnCharAux sep rest []
    else splitOnCharAux sep rest (c :: acc)

/-- QString::split(sep), keeping empty parts. -/
def splitOnChar (sep : Char) (s : String) : List String :=
  splitOnCharAux sep s.data []

/-- Path segments of a path string: QString::split('/'). -/
def splitSegs (s : String) : List String :=
  splitOnChar '/' s

/-- Join segments with a separator char (inverse of splitOnChar). -/
def joinSegsChars (sep : Char) : List String → List Char
  | [] => []
  | [s] => s.data
  | s :: rest => s.data ++ sep :: joinSegsChars sep rest

/-- Join strings with a separator character. -/
def joinWithChar (sep : Char) (l : List String) : String :=
  String.mk (joinSegsChars sep l)

/-- Render a canonical (absolute, clean) segment list as a path string:
"/" for the root, "/a/b" otherwise. -/
def renderCanon (segs : List String) : String :=
  String.mk ('/' :: joinSegsChars '/' segs)

/-- QString::trimmed().isEmpty(): true iff every character is whitespace. -/
def blankStr (s : String) : Bool :=
  s.data.all Char.isWhitespace

/-- List-level "the first list is an initial run of the second". -/
def leadsList : List Char → List Char → Bool
  | [], _ => true
  | _ :: _, [] => false
  | a :: as, b :: bs => a = b && leadsList as bs

/-- QString::startsWith. -/
def strLeads (pre s : String) : Bool :=
  leadsList pre.data s.data

/-- QString::mid(n) / drop of the first n characters. -/
def strDrop (n : Nat) (s : String) : String :=
  String.mk (s.data.drop n)

/-- First character test (used for absolute-path detection). -/
def isAbsStr (s : String) : Bool :=
  match s.data with
  | '/' :: _ => true
  | _ => false

/-- First-character test against a given character. -/
def strHeadIs (c : Char) (s : String) : Bool :=
  match s.data with
  | d :: _ => d = c
  | [] => false

/-- QDir(parent).filePath(name): "parent/name", with the root special case. -/
def qdirFilePath (parent name : String) : String :=
  if parent = "/" then "/" ++ name else parent ++ "/" ++ name

/-- QFileInfo::fileName: everything after the last '/'. -/
def fileName (p : String) : String :=
  (splitSegs p).getLastD ""

/-- QFileInfo::dir().path(): everything before the last '/'; "/" when that
is empty. (The engine only applies this to absolute paths.) -/
def dirName (p : String) : String :=
  let pre := joinWithChar '/' (splitSegs p).dropLast
  if pre = "" then "/" else pre

/-- Lexical cleaning of an absolute path's segments: drop empty and "."
segments, make ".." pop (".." above the root stays at the root). -/
def cleanSegsGo (stack : List String) : List String → List String
  | [] => stack
  | s :: rest =>
    if s = "" ∨ s = "." then cleanSegsGo stack rest
    else if s = ".." then cleanSegsGo stack.dropLast rest
    else cleanSegsGo (stack ++ [s]) rest

/-- Lexical cleaning of a relative path's segments: leading ".." segments
are kept, as QDir::cleanPath keeps them. -/
def cleanSegsRel (stack : List String) : List String → List String
  | [] => stack
  | s :: rest =>
    if s = "" ∨ s = "." then cleanSegsRel stack rest
    else if s = ".." then
      if stack = [] ∨ stack.getLastD "" = ".." then cleanSegsRel (stack ++ [s]) rest
      else cleanSegsRel stack.dropLast rest
    else cleanSegsRel (stack ++ [s]) rest

/-- QDir::cleanPath. -/
def qtCleanPath (p : String) : String :=
  if isAbsStr p then renderCanon (cleanSegsGo [] (splitSegs p))
  else
    let segs := cleanSegsRel [] (splitSegs p)
    if segs = [] then "." else joinWithChar '/' segs

/-- QDir(path).absolutePath() (before the surrounding cleanPath): prepend
the current working directory to a relative path. -/
def absolutize (cwd p : String) : String :=
  if isAbsStr p then p
  else if cwd = "/" then "/" ++ p else cwd ++ "/" ++ p

/-- The cleaned segment list of an (absolute) path, used by the lexical
mutation primitives. -/
def pathSegs (p : String) : List String :=
  cleanSegsGo [] (splitSegs p)

/-- QFileInfo::completeBaseName: the file name up to (excluding) the last
dot; the whole name if there is no dot. -/
def completeBaseName (n : String) : String :=
  let parts := splitOnChar '.' n
  if parts.length ≤ 1 then n else joinWithChar '.' parts.dropLast

/-- QFileInfo::completeSuffix: the file name after the first dot; "" if
there is no dot. -/
def completeSuffix (n : String) : String :=
  let parts := splitOnChar '.' n
  if parts.length ≤ 1 then "" else joinWithChar '.' (parts.drop 1)

/-- A filesystem entry: regular file (content), directory (named
children), symbolic link (target text), or any other entry type
(socket, device file, ...). -/
inductive Entry where
  | file (content : String)
  | dir (children : List (String × Entry))
  | symlink (target : String)
  | other

/-- Look up a child by name in a directory's child list. -/
def findChild : List (String × Entry) → String → Option Entry
  | [], _ => none
  | (m, c) :: rest, n => if m = n then some c else findChild rest n

/-- Replace the binding for a name, or append a new one. -/
def setChild : List (String × Entry) → String → Entry → List (String × Entry)
  | [], n, x => [(n, x)]
  | (m, c) :: rest, n, x =>
    if m = n then (n, x) :: rest else (m, c) :: setChild rest n x

/-- Remove the binding for a name (first occurrence). -/
def removeChild : List (String × Entry) → String → List (String × Entry)
  | [], _ => []
  | (m, c) :: rest, n => if m = n then rest else (m, c) :: removeChild rest n

/-- Purely lexical lookup along a segment list (no symlink traversal). -/
def lookupSegs : Entry → List String → Option Entry
  | e, [] => some e
  | Entry.dir cs, n :: rest =>
    match findChild cs n with
    | some c => lookupSegs c rest
    | none => none
  | _, _ :: _ => none

/-- Create or replace the entry at a nonempty segment path whose proper
prefixes are existing directories. -/
def putEntry : Entry → List String → Entry → Option Entry
  | _, [], _ => none
  | Entry.dir cs, n :: rest, x =>
    match rest with
    | [] => some (Entry.dir (setChild cs n x))
    | _ :: _ =>
      match findChild cs n with
      | some c => (putEntry c rest x).map (fun c' => Entry.dir (setChild cs n c'))
      | none => none
  | _, _ :: _, _ => none

/-- Remove the entry at a nonempty segment path. -/
def delEntry : Entry → List String → Option Entry
  | _, [] => none
  | Entry.dir cs, n :: rest =>
    match rest with
    | [] => if (findChild cs n).isSome then some (Entry.dir (removeChild cs n)) else none
    | _ :: _ =>
      match findChild cs n with
      | some c => (delEntry c rest).map (fun c' => Entry.dir (setChild cs n c'))
      | none => none
  | _, _ :: _ => none

/-- POSIX path resolution: walk raw segments from a resolved base,
following symbolic links. The fuel bounds the total number of
resolution steps (the OS bounds both the symlink traversals and the
path length). Returns the canonical segment list. -/
def resolveSegs (fs : Entry) : Nat → List String → List String → Option (List String)
  | _, base, [] => some base
  | 0, _, _ :: _ => none
  | fuel + 1, base, seg :: rest =>
    if seg = "" ∨ seg = "." then resolveSegs fs fuel base rest
    else if seg = ".." then resolveSegs fs fuel base.dropLast rest
    else
      match lookupSegs fs (base ++ [seg]) with
      | none => none
      | some (Entry.symlink t) =>
        if isAbsStr t then resolveSegs fs fuel [] (splitSegs t ++ rest)
        else resolveSegs fs fuel base (splitSegs t ++ rest)
      | some (Entry.dir _) => resolveSegs fs fuel (base ++ [seg]) rest
      | some _ => if rest = [] then some (base ++ [seg]) else none

/-- Step bound of one path resolution. -/
def maxLinks : Nat := 4096

/-- stat(2): resolve a path fully (following a final symlink) and return
the entry it denotes. -/
def statEntry (fs : Entry) (p : String) : Option Entry :=
  match resolveSegs fs maxLinks [] (splitSegs p) with
  | some out => lookupSegs fs out
  | none => none

/-- QFileInfo::exists (follows symlinks; false for a dangling link). -/
def qExists (fs : Entry) (p : String) : Bool :=
  (statEntry fs p).isSome

/-- QFileInfo::isFile (follows symlinks). -/
def qIsFile (fs : Entry) (p : String) : Bool :=
  match statEntry fs p with
  | some (Entry.file _) => true
  | _ => false

/-- QFileInfo::isDir (follows symlinks). -/
def qIsDir (fs : Entry) (p : String) : Bool :=
  match statEntry fs p with
  | some (Entry.dir _) => true
  | _ => false

/-- QFileInfo::size of a regular file (follows symlinks). -/
def qFileSize (fs : Entry) (p : String) : Nat :=
  match statEntry fs p with
  | some (Entry.file c) => c.length
  | _ => 0

/-- lstat-style lookup: the entry stored at the lexical path itself. -/
def lstatEntry (fs : Entry) (p : String) : Option Entry :=
  lookupSegs fs (pathSegs p)

/-- QFileInfo::isSymLink (lstat; true also for dangling links). -/
def qIsSymLink (fs : Entry) (p : String) : Bool :=
  match lstatEntry fs p with
  | some (Entry.symlink _) => true
  | _ => false

/-- QFileInfo::symLinkTarget, as stored link text. -/
def qSymLinkTarget (fs : Entry) (p : String) : String :=
  match lstatEntry fs p with
  | some (Entry.symlink t) => t
  | _ => ""

/-- QFileInfo::canonicalFilePath: the fully resolved absolute path, ""
when resolution fails. -/
def canonicalFilePath (fs : Entry) (p : String) : String :=
  match resolveSegs fs maxLinks [] (splitSegs p) with
  | some out => renderCanon out
  | none => ""

/-- normalizePathForFs (kitaplik.cpp:124): clean the absolutized path;
if that cleaned path exists, take its canonical form unless that is
blank. -/
def normalizePathForFs (fs : Entry) (cwd p : String) : String :=
  let clean := qtCleanPath (absolutize cwd p)
  if qExists fs clean then
    let canonical := canonicalFilePath fs clean
    if ¬ blankStr canonical then canonical else clean
  else clean

/-- Environment: process state and injectable OS outcomes the engine
branches on. Fields: current directory, home directory, millisecond
timestamp, formatted UTC date, per-path writability, read-only
filesystem flag, per-path remove success, per-rename success, per-path
write-open success, chunk index of an injected read failure, chunk
index of an injected short write. -/
structure Env where
  cwd : String
  home : String
  nowMs : Nat
  nowDate : String
  writableOk : String → Bool
  readOnlyFs : String → Bool
  removeOk : String → Bool
  renameOk : String → String → Bool
  openWriteOk : String → Bool
  readFailAt : Option Nat
  writeFailAt : Option Nat

/-- Environment in which every OS operation succeeds. -/
def envOk : Env :=
  ⟨"/", "/home/user", 0, "2024-01-01T00:00:00",
   fun _ => true, fun _ => false, fun _ => true, fun _ _ => true,
   fun _ => true, none, none⟩

/-- Create or replace an entry at an absolute path (lexical parent). -/
def fsPut (fs : Entry) (p : String) (e : Entry) : Option Entry :=
  putEntry fs (pathSegs p) e

/-- Remove the entry at an absolute path (lexical, link itself). -/
def fsDel (fs : Entry) (p : String) : Option Entry :=
  delEntry fs (pathSegs p)

/-- QFile::rename / QDir::rename: fails when the destination exists;
otherwise detaches the source entry and attaches it at the destination.
Returns none (state unchanged) on failure. -/
def fsRename (fs : Entry) (src dest : String) : Option Entry :=
  if qExists fs dest then none
  else
    match lookupSegs fs (pathSegs src) with
    | none => none
    | some e =>
      match delEntry fs (pathSegs src) with
      | none => none
      | some fs1 => putEntry fs1 (pathSegs dest) e

/-- QDir::mkdir: fails when anything (even a dangling link) is at the
path or the parent is missing. -/
def fsMkdir (fs : Entry) (p : String) : Option Entry :=
  match lookupSegs fs (pathSegs p) with
  | some _ => none
  | none => fsPut fs p (Entry.dir [])

/-- QDir::mkpath helper: create missing directory components, following
symlinked components that resolve to directories. -/
def fsMkpathGo (fs : Entry) (base : List String) : List String → Option Entry
  | [] => some fs
  | seg :: rest =>
    if seg = "" ∨ seg = "." then fsMkpathGo fs base rest
    else if seg = ".." then fsMkpathGo fs base.dropLast rest
    else
      match lookupSegs fs (base ++ [seg]) with
      | none =>
        match putEntry fs (base ++ [seg]) (Entry.dir []) with
        | some fs' => fsMkpathGo fs' (base ++ [seg]) rest
        | none => none
      | some (Entry.dir _) => fsMkpathGo fs (base ++ [seg]) rest
      | some (Entry.symlink _) =>
        match resolveSegs fs maxLinks base [seg] with
        | some b' =>
          match lookupSegs fs b' with
          | some (Entry.dir _) => fsMkpathGo fs b' rest
          | _ => none
        | none => none
      | some _ => none

/-- QDir::mkpath. -/
def fsMkpath (fs : Entry) (p : String) : Option Entry :=
  fsMkpathGo fs [] (splitSegs p)

/-- Conflict decision returned by the resolver (kitaplik.cpp:194). -/
inductive ConflictChoice where
  | replace
  | skip
  | keepBoth
  | cancel

/-- ConflictResolver (kitaplik.cpp:202): source, destination, isDirectory. -/
abbrev Resolver := String → String → Bool → ConflictChoice

/-- The base name makeUniqueKeepBothPath splits off (kitaplik.cpp:209):
the plain name for a directory, the completeBaseName otherwise, falling
back to the full name when blank. -/
def kbBase (isdir : String → Bool) (destinationPath : String) : String :=
  let name := fileName destinationPath
  let base0 := if isdir destinationPath then name else completeBaseName name
  if blankStr base0 then name else base0

/-- The suffix makeUniqueKeepBothPath re-appends (kitaplik.cpp:215):
"." plus the completeSuffix for a non-directory with a non-blank
suffix, "" otherwise. -/
def kbSuffix (isdir : String → Bool) (destinationPath : String) : String :=
  if isdir destinationPath then ""
  else
    let s := completeSuffix (fileName destinationPath)
    if ¬ blankStr s then "." ++ s else ""

/-- Candidate file name number i of the keep-both loop
(kitaplik.cpp:224): "base (copy)suffix" for i = 1, "base (copy i)suffix"
for i > 1. -/
def kbCandName (base suffix : String) (i : Nat) : String :=
  if i = 1 then base ++ " (copy)" ++ suffix
  else base ++ " (copy " ++ toString i ++ ")" ++ suffix

/-- The probing loop of makeUniqueKeepBothPath (kitaplik.cpp:223): try
candidates i, i+1, ... while fuel remains; the first candidate the
existence check rejects wins. -/
def keepBothProbe (ex : String → Bool) (cand : Nat → String) :
    Nat → Nat → Option String
  | _, 0 => none
  | i, r + 1 =>
    if ex (cand i) then keepBothProbe ex cand (i + 1) r else some (cand i)

/-- makeUniqueKeepBothPath (kitaplik.cpp:204), parameterized by the
existence and directory predicates of the surrounding filesystem and by
the current-millisecond clock used for the fallback name: probe
candidates 1..10000, fall back to a timestamp-suffixed name. -/
def makeUniqueKeepBothPath (ex : String → Bool) (isdir : String → Bool)
    (nowMs : Nat) (destinationPath : String) : String :=
  let parent := dirName destinationPath
  let base := kbBase isdir destinationPath
  let suffix := kbSuffix isdir destinationPath
  match keepBothProbe ex (fun i => qdirFilePath parent (kbCandName base suffix i)) 1 10000 with
  | some c => c
  | none => qdirFilePath parent (base ++ " (" ++ toString nowMs ++ ")" ++ suffix)

/-- makeUniqueKeepBothPath as invoked by the engine, over the modelled
filesystem. -/
def engineMakeUnique (env : Env) (fs : Entry) (destPath : String) : String :=
  makeUniqueKeepBothPath (qExists fs) (qIsDir fs) env.nowMs destPath

/-- QDir::entryInfoList(NoDotAndDotDot | AllEntries) membership: hidden
entries (leading dot) are excluded because QDir::Hidden is not passed,
and entries that are neither files nor directories after following
links (sockets, devices, dangling links) are excluded because
QDir::System is not passed. -/
def isListed (fs : Entry) (dirPath : String) (nc : String × Entry) : Bool :=
  ¬ strHeadIs '.' nc.1 &&
    (qIsFile fs (qdirFilePath dirPath nc.1) || qIsDir fs (qdirFilePath dirPath nc.1))

/-- Insertion step for name-sorted child lists. -/
def sortInsert (x : String × Entry) : List (String × Entry) → List (String × Entry)
  | [] => [x]
  | y :: rest => if x.1 ≤ y.1 then x :: y :: rest else y :: sortInsert x rest

/-- Child list sorted by name. -/
def sortByName (l : List (String × Entry)) : List (String × Entry) :=
  l.foldr sortInsert []

/-- The child names a QDir listing with QDir::Name | QDir::DirsFirst
yields: listed children, directories (after following links) first,
each group sorted by name. -/
def listEntries (fs : Entry) (dirPath : String) (cs : List (String × Entry)) :
    List String :=
  let listed := cs.filter (isListed fs dirPath)
  let dirs := listed.filter (fun nc => qIsDir fs (qdirFilePath dirPath nc.1))
  let files := listed.filter (fun nc => ¬ qIsDir fs (qdirFilePath dirPath nc.1))
  (sortByName dirs ++ sortByName files).map (fun nc => nc.1)

/-- Fuel-exhaustion sentinel of the modelled size recursion (the C++
recursion is unbounded; every theorem below supplies enough fuel). -/
def outOfFuelMsg : String := "model: recursion fuel exhausted"

/-- Sum of a size function over a directory's listed children,
propagating the first error (the loop of kitaplik.cpp:255). -/
def totalBytesChildren (size : String → Except String Nat) (dirPath : String) :
    List (String × Entry) → Except String Nat
  | [] => Except.ok 0
  | nc :: rest =>
    match size (qdirFilePath dirPath nc.1) with
    | Except.error e => Except.error e
    | Except.ok a =>
      match totalBytesChildren size dirPath rest with
      | Except.error e => Except.error e
      | Except.ok b => Except.ok (a + b)

/-- totalBytesForPath (kitaplik.cpp:235): 0 for a missing path, the size
for anything that stats as a regular file (including a symlink to one),
0 for remaining symlinks, the recursive sum over listed children for a
directory, and an unsupported-type error otherwise. The fuel bounds the
modelled recursion depth. -/
def totalBytesForPath (fs : Entry) : Nat → String → Except String Nat
  | 0, _ => Except.error outOfFuelMsg
  | fuel + 1, p =>
    if ¬ qExists fs p then Except.ok 0
    else if qIsFile fs p then Except.ok (qFileSize fs p)
    else if qIsSymLink fs p then Except.ok 0
    else if ¬ qIsDir fs p then Except.error ("Unsupported file type: " ++ p)
    else
      match statEntry fs p with
      | some (Entry.dir cs) =>
        totalBytesChildren (totalBytesForPath fs fuel) p (cs.filter (isListed fs p))
      | _ => Except.error ("Unsupported file type: " ++ p)

/-- Result of the modelled removeRecursively. -/
structure RmResult where
  fs : Entry
  ok : Bool
  error : Option String

/-- Result of advanceProgressByPathSize: new doneBytes, emitted progress
events, success flag, error. -/
structure AdvResult where
  done : Nat
  events : List (Nat × Nat)
  ok : Bool
  error : Option String

/-- Result of a recursive or single-file copy: final filesystem, final
doneBytes, progress events in emission order, success flag,
cancelled-by-user flag, error message. -/
structure CopyResult where
  fs : Entry
  done : Nat
  events : List (Nat × Nat)
  ok : Bool
  cancelled : Bool
  error : Option String

/-- Fall back to a default message when the reported one is empty
(QString::isEmpty). -/
def orBlank (o : Option String) (fb : String) : String :=
  match o with
  | some e => if e = "" then fb else e
  | none => fb

/-- removeRecursively (kitaplik.cpp:91): vacuous success when the path
does not stat (note: a dangling symlink is left in place), then
link / directory / file removal, gated by the environment's remove
outcome. -/
def removeRecursivelyM (env : Env) (fs : Entry) (p : String) : RmResult :=
  if ¬ qExists fs p then ⟨fs, true, none⟩
  else if qIsSymLink fs p then
    match (if env.removeOk p then fsDel fs p else none) with
    | some fs' => ⟨fs', true, none⟩
    | none => ⟨fs, false, some ("Failed to delete symbolic link: " ++ p)⟩
  else if qIsDir fs p then
    match (if env.removeOk p then fsDel fs p else none) with
    | some fs' => ⟨fs', true, none⟩
    | none => ⟨fs, false, some ("Failed to delete directory: " ++ p)⟩
  else
    match (if env.removeOk p then fsDel fs p else none) with
    | some fs' => ⟨fs', true, none⟩
    | none => ⟨fs, false, some ("Failed to delete file: " ++ p)⟩

/-- advanceProgressByPathSize (kitaplik.cpp:268): recompute the path's
size, add it to doneBytes, and emit one progress event when the total
is positive. -/
def advanceProgressByPathSize (fs : Entry) (fuel : Nat) (p : String)
    (done total : Nat) : AdvResult :=
  match totalBytesForPath fs fuel p with
  | Except.error e => ⟨done, [], false, some e⟩
  | Except.ok sz =>
    ⟨done + sz, if total > 0 then [(done + sz, total)] else [], true, none⟩

/-- The copy buffer size (kitaplik.cpp:343): 1024 * 1024 bytes. -/
def bufSize : Nat := 1048576

/-- Chunking worker: k characters still fit in the current chunk, whose
characters are accumulated in reverse in cur. -/
def chunkCharsGo (cur : List Char) : Nat → List Char → List (List Char)
  | _, [] => [cur.reverse]
  | 0, c :: rest => cur.reverse :: chunkCharsGo [c] (bufSize - 1) rest
  | k + 1, c :: rest => chunkCharsGo (c :: cur) k rest

/-- Split file content into the buffer-sized chunks the copy loop reads. -/
def chunkChars : List Char → List (List Char)
  | [] => []
  | c :: rest => chunkCharsGo [c] (bufSize - 1) rest

/-- The read/write loop of copyFileWithProgress (kitaplik.cpp:344):
per chunk, a read failure or short write aborts with an error;
otherwise doneBytes advances by the chunk size and a progress event is
emitted. Returns (events, final doneBytes, error). -/
def copyChunks (env : Env) (srcPath tempPath : String) (total : Nat) :
    List (List Char) → Nat → Nat → List (Nat × Nat) × Nat × Option String
  | [], _, done => ([], done, none)
  | c :: rest, i, done =>
    if env.readFailAt = some i then ([], done, some ("Read error: " ++ srcPath))
    else if env.writeFailAt = some i then ([], done, some ("Write error: " ++ tempPath))
    else
      let d := done + c.length
      match copyChunks env srcPath tempPath total rest (i + 1) d with
      | (evs, dfin, err) => ((d, total) :: evs, dfin, err)

/-- The temporary sibling path used by the single-file copy
(kitaplik.cpp:333). -/
def tempPathFor (env : Env) (destPath : String) : String :=
  destPath ++ ".kitaplik-tmp-" ++ toString env.nowMs

/-- The atomic put-into-place step (kitaplik.cpp:374): rename the
temporary file onto the destination, removing the temporary on
failure. -/
def finalizeRename (env : Env) (fs : Entry) (tempPath destPath : String)
    (done : Nat) (evs : List (Nat × Nat)) : CopyResult :=
  match (if env.renameOk tempPath destPath then fsRename fs tempPath destPath else none) with
  | some fs' => ⟨fs', done, evs, true, false, none⟩
  | none =>
    ⟨(fsDel fs tempPath).getD fs, done, evs, false, false,
      some ("Failed to finalize destination: " ++ destPath)⟩

/-- The post-conflict part of copyFileWithProgress (kitaplik.cpp:326):
open the source, create the temporary sibling with NewOnly, stream the
chunks, then remove an existing destination and rename the temporary
into place; every failure after the temporary was created removes it. -/
def copyFileBody (env : Env) (fs : Entry) (srcPath destPath : String)
    (done total : Nat) : CopyResult :=
  match statEntry fs srcPath with
  | some (Entry.file content) =>
    let tempPath := tempPathFor env destPath
    if (lookupSegs fs (pathSegs tempPath)).isSome then
      ⟨fs, done, [], false, false, some ("Failed to create temporary file: " ++ tempPath)⟩
    else
      match fsPut fs tempPath (Entry.file "") with
      | none =>
        ⟨fs, done, [], false, false, some ("Failed to create temporary file: " ++ tempPath)⟩
      | some fs1 =>
        match copyChunks env srcPath tempPath total (chunkChars content.data) 0 done with
        | (evs, d1, some err) =>
          ⟨(fsDel fs1 tempPath).getD fs1, d1, evs, false, false, some err⟩
        | (evs, d1, none) =>
          let fs2 := (fsPut fs1 tempPath (Entry.file content)).getD fs1
          if qExists fs2 destPath then
            if env.removeOk destPath then
              finalizeRename env ((fsDel fs2 destPath).getD fs2) tempPath destPath d1 evs
            else
              ⟨(fsDel fs2 tempPath).getD fs2, d1, evs, false, false,
                some ("Failed to replace destination: " ++ destPath)⟩
          else finalizeRename env fs2 tempPath destPath d1 evs
  | _ => ⟨fs, done, [], false, false, some ("Failed to open source: " ++ srcPath)⟩

/-- Outcome of the conflict-handling preamble shared by the symlink,
directory and file branches (kitaplik.cpp:303/404/442). -/
inductive GateOut where
  | stop (r : CopyResult)
  | skip
  | go (fs : Entry) (dp : String)

/-- The conflict-handling preamble: when the destination exists, ask the
resolver; Cancel stops the run, Skip is handled by the caller, KeepBoth
redirects to a unique sibling, Replace removes the existing destination
first. -/
def conflictGate (env : Env) (fs : Entry) (srcPath destPath : String)
    (isDirectory : Bool) (resolve : Resolver) (done : Nat) : GateOut :=
  if qExists fs destPath then
    match resolve srcPath destPath isDirectory with
    | ConflictChoice.cancel =>
      GateOut.stop ⟨fs, done, [], false, true, some ("Operation cancelled.")⟩
    | ConflictChoice.skip => GateOut.skip
    | ConflictChoice.keepBoth => GateOut.go fs (engineMakeUnique env fs destPath)
    | ConflictChoice.replace =>
      match removeRecursivelyM env fs destPath with
      | ⟨fs', true, _⟩ => GateOut.go fs' destPath
      | ⟨fs', false, err⟩ =>
        GateOut.stop ⟨fs', done, [], false, false,
          some (orBlank err ("Failed to replace destination: " ++ destPath))⟩
  else GateOut.go fs destPath

/-- copyFileWithProgress (kitaplik.cpp:291): conflict handling (Skip
advances progress by the source's recomputed size), then the
temp-file-and-rename body. -/
def copyFileWithProgress (env : Env) (fuel : Nat) (fs : Entry)
    (srcPath destPath : String) (done total : Nat) (resolve : Resolver) : CopyResult :=
  match conflictGate env fs srcPath destPath false resolve done with
  | GateOut.stop r => r
  | GateOut.skip =>
    let a := advanceProgressByPathSize fs fuel srcPath done total
    ⟨fs, a.done, a.events, a.ok, false, a.error⟩
  | GateOut.go fs' dp => copyFileBody env fs' srcPath dp done total

/-- The symlink-recreation step of copyRecursivelyWithProgress
(kitaplik.cpp:426): read the link text from the source seen at entry
and create the link at the destination. -/
def copySymlinkStep (fs0 fs' : Entry) (srcPath dp : String)
    (done : Nat) : CopyResult :=
  let t := qSymLinkTarget fs0 srcPath
  if blankStr t then
    ⟨fs', done, [], false, false, some ("Invalid symbolic link: " ++ srcPath)⟩
  else
    match (if (lookupSegs fs' (pathSegs dp)).isSome then none
           else fsPut fs' dp (Entry.symlink t)) with
    | some fs'' => ⟨fs'', done, [], true, false, none⟩
    | none =>
      ⟨fs', done, [], false, false,
        some ("Failed to copy symbolic link:\n" ++ srcPath ++ "\n→ " ++ dp)⟩

/-- The sibling loop of the directory branch (kitaplik.cpp:481): copy
each child in order with the supplied one-entry copy, stopping at the
first failing child. -/
def copyChildren (step : Entry → String → String → Nat → CopyResult)
    (srcBase destBase : String) : List String → Entry → Nat → CopyResult
  | [], fs, done => ⟨fs, done, [], true, false, none⟩
  | n :: rest, fs, done =>
    let r := step fs (qdirFilePath srcBase n) (qdirFilePath destBase n) done
    if r.ok then
      let r2 := copyChildren step srcBase destBase rest r.fs r.done
      ⟨r2.fs, r2.done, r.events ++ r2.events, r2.ok, r2.cancelled, r2.error⟩
    else ⟨r.fs, r.done, r.events, false, r.cancelled, r.error⟩

/-- copyRecursivelyWithProgress (kitaplik.cpp:383): missing source is an
error; a symlink is recreated by target text (conflict Skip adds no
progress); a directory resolves its conflict (Skip advances by the
subtree's recomputed size), ensures the destination directory, and
recurses over its listed children, directories first, in name order; a
regular file delegates to copyFileWithProgress. The fuel bounds the
modelled recursion depth. -/
def copyRecursivelyWithProgress (env : Env) : Nat → Entry → String → String →
    Nat → Nat → Resolver → CopyResult
  | 0, fs, _, _, done, _, _ => ⟨fs, done, [], false, false, some outOfFuelMsg⟩
  | fuel + 1, fs, srcPath, destPath, done, total, resolve =>
    if ¬ qExists fs srcPath then
      ⟨fs, done, [], false, false, some ("Missing source: " ++ srcPath)⟩
    else if qIsSymLink fs srcPath then
      match conflictGate env fs srcPath destPath false resolve done with
      | GateOut.stop r => r
      | GateOut.skip => ⟨fs, done, [], true, false, none⟩
      | GateOut.go fs' dp => copySymlinkStep fs fs' srcPath dp done
    else if qIsDir fs srcPath then
      match conflictGate env fs srcPath destPath true resolve done with
      | GateOut.stop r => r
      | GateOut.skip =>
        let a := advanceProgressByPathSize fs fuel srcPath done total
        ⟨fs, a.done, a.events, a.ok, false, a.error⟩
      | GateOut.go fs' dp =>
        if ¬ qExists fs' dp then
          match fsMkdir fs' dp with
          | none => ⟨fs', done, [], false, false, some ("Failed to create directory: " ++ dp)⟩
          | some fs'' =>
            let cs := match statEntry fs'' srcPath with
              | some (Entry.dir cs) => cs
              | _ => []
            copyChildren
              (fun f sp dp' d => copyRecursivelyWithProgress env fuel f sp dp' d total resolve)
              srcPath dp (listEntries fs'' srcPath cs) fs'' done
        else if ¬ qIsDir fs' dp then
          ⟨fs', done, [], false, false,
            some ("Destination exists and isn't a directory: " ++ dp)⟩
        else
          let cs := match statEntry fs' srcPath with
            | some (Entry.dir cs) => cs
            | _ => []
          copyChildren
            (fun f sp dp' d => copyRecursivelyWithProgress env fuel f sp dp' d total resolve)
            srcPath dp (listEntries fs' srcPath cs) fs' done
    else copyFileWithProgress env fuel fs srcPath destPath done total resolve

/-- The upward walk of ensureWritableTarget (kitaplik.cpp:136): return
the current path once it exists; stop with "" when the parent directory
does not exist or the parent equals the current path. -/
def nearestExistingGo (fs : Entry) : Nat → String → String
  | 0, _ => ""
  | n + 1, cur =>
    if blankStr cur then ""
    else if qExists fs cur then cur
    else
      let parent := dirName cur
      if ¬ qIsDir fs parent ∨ parent = cur then ""
      else nearestExistingGo fs n parent

/-- nearestExistingPath (kitaplik.cpp:136). The fuel covers the path's
depth, which bounds the upward walk. -/
def nearestExistingPath (fs : Entry) (p : String) : String :=
  nearestExistingGo fs ((splitSegs p).length + 1) p

/-- ensureWritableTarget (kitaplik.cpp:152): the nearest existing
ancestor must exist, be writable, and not sit on a read-only
filesystem. -/
def ensureWritableTarget (env : Env) (fs : Entry) (p : String) : Bool × Option String :=
  let existing := nearestExistingPath fs p
  if blankStr existing then (false, some ("No writable parent for path: " ++ p))
  else if ¬ env.writableOk existing then (false, some ("Permission denied: " ++ existing))
  else if env.readOnlyFs existing then (false, some ("Read-only filesystem: " ++ existing))
  else (true, none)

/-- Result of the paste worker's per-source loop. -/
structure LoopResult where
  fs : Entry
  done : Nat
  events : List (Nat × Nat)
  errors : List String
  cancelled : Bool

/-- Result of a whole paste run. -/
structure PasteResult where
  fs : Entry
  done : Nat
  total : Nat
  events : List (Nat × Nat)
  errors : List String
  cancelled : Bool
  clearClipboard : Bool

/-- The up-front size scan of the paste worker (kitaplik.cpp:895):
errors are collected, the failing source contributes 0, and all sizes
share one total. Returns (errors, per-source sizes, total). -/
def pasteScan (fs : Entry) (fuel : Nat) : List String → List String × List Nat × Nat
  | [] => ([], [], 0)
  | s :: rest =>
    let r := pasteScan fs fuel rest
    match totalBytesForPath fs fuel s with
    | Except.error e =>
      ((if e = "" then "Failed to scan: " ++ s else e) :: r.1, 0 :: r.2.1, r.2.2)
    | Except.ok n => (r.1, n :: r.2.1, n + r.2.2)

/-- The per-source loop of the paste worker (kitaplik.cpp:985): skip
vanished sources; for a cut, guard source writability; skip a source
that cleans to its own destination; for a cut, try a direct rename
(crediting the scanned size at once) before falling back to copy plus
delete; collect per-source errors; stop the loop on cancellation. -/
def pasteLoop (env : Env) (fuel : Nat) (destDir : String) (isCut : Bool)
    (resolve : Resolver) (total : Nat) (fs : Entry) (srcs : List String)
    (i : Nat) (perSrc : List Nat) (done : Nat) : LoopResult :=
  match srcs with
  | [] => ⟨fs, done, [], [], false⟩
  | s :: rest =>
    if ¬ qExists fs s then
      pasteLoop env fuel destDir isCut resolve total fs rest (i + 1) perSrc done
    else
      match (if isCut then ensureWritableTarget env fs s else (true, none)) with
      | (false, werr) =>
        let r := pasteLoop env fuel destDir isCut resolve total fs rest (i + 1) perSrc done
        ⟨r.fs, r.done, r.events, (werr.getD "") :: r.errors, r.cancelled⟩
      | (true, _) =>
        let destPath := qdirFilePath destDir (fileName s)
        if qtCleanPath s = qtCleanPath destPath then
          pasteLoop env fuel destDir isCut resolve total fs rest (i + 1) perSrc done
        else if isCut then
          match (if ¬ qExists fs destPath && env.renameOk s destPath
                 then fsRename fs s destPath else none) with
          | some fs' =>
            let d := done + perSrc.getD i 0
            let r := pasteLoop env fuel destDir isCut resolve total fs' rest (i + 1) perSrc d
            ⟨r.fs, r.done, (d, total) :: r.events, r.errors, r.cancelled⟩
          | none =>
            let c := copyRecursivelyWithProgress env fuel fs s destPath done total resolve
            if c.ok then
              match removeRecursivelyM env c.fs s with
              | ⟨fs2, true, _⟩ =>
                let r := pasteLoop env fuel destDir isCut resolve total fs2 rest (i + 1) perSrc c.done
                ⟨r.fs, r.done, c.events ++ r.events, r.errors, r.cancelled⟩
              | ⟨fs2, false, rmErr⟩ =>
                let e1 := orBlank rmErr ("Failed to delete after move: " ++ s)
                let e2 := if blankStr e1 then "Failed to move:\n" ++ s ++ "\n→ " ++ destPath else e1
                let r := pasteLoop env fuel destDir isCut resolve total fs2 rest (i + 1) perSrc c.done
                ⟨r.fs, r.done, c.events ++ r.events, e2 :: r.errors, r.cancelled⟩
            else if c.cancelled then ⟨c.fs, c.done, c.events, [], true⟩
            else
              let e0 := (c.error).getD ""
              let e1 := if blankStr e0 then "Failed to move:\n" ++ s ++ "\n→ " ++ destPath else e0
              let e2 := if blankStr e1 then "Paste failed for: " ++ s else e1
              let r := pasteLoop env fuel destDir isCut resolve total c.fs rest (i + 1) perSrc c.done
              ⟨r.fs, r.done, c.events ++ r.events, e2 :: r.errors, r.cancelled⟩
        else
          let c := copyRecursivelyWithProgress env fuel fs s destPath done total resolve
          if c.ok then
            let r := pasteLoop env fuel destDir isCut resolve total c.fs rest (i + 1) perSrc c.done
            ⟨r.fs, r.done, c.events ++ r.events, r.errors, r.cancelled⟩
          else if c.cancelled then ⟨c.fs, c.done, c.events, [], true⟩
          else
            let e0 := (c.error).getD ""
            let e1 := if blankStr e0 then "Paste failed for: " ++ s else e0
            let r := pasteLoop env fuel destDir isCut resolve total c.fs rest (i + 1) perSrc c.done
            ⟨r.fs, r.done, c.events ++ r.events, e1 :: r.errors, r.cancelled⟩

/-- The paste worker (kitaplik.cpp:887): normalize the destination, scan
sizes, emit the initial progress notification, run the per-source loop,
emit the final progress call, and clear the clipboard only for an
error-free, uncancelled cut. Events are the raw calls handed to the
progress callback, in order. -/
def pasteRun (env : Env) (fuel : Nat) (fs0 : Entry) (sourcePaths : List String)
    (destDirInput : String) (isCut : Bool) (resolve : Resolver) : PasteResult :=
  let destDir := normalizePathForFs fs0 env.cwd destDirInput
  let scan := pasteScan fs0 fuel sourcePaths
  let total := scan.2.2
  let r := pasteLoop env fuel destDir isCut resolve total fs0 sourcePaths 0 scan.2.1 0
  let errors := scan.1 ++ r.errors
  ⟨r.fs, r.done, total, (0, total) :: (r.events ++ [(r.done, total)]), errors,
    r.cancelled, errors.isEmpty && ¬ r.cancelled && isCut⟩

/-- Unreserved characters that QUrl::toPercentEncoding leaves as-is. -/
def isUnreservedChar (c : Char) : Bool :=
  c.isAlphanum || c = '-' || c = '.' || c = '_' || c = '~'

/-- Uppercase hexadecimal digit for a value below 16. -/
def hexDigitChar (n : Nat) : Char :=
  if n < 10 then Char.ofNat (48 + n) else Char.ofNat (55 + n)

/-- QUrl::toPercentEncoding(s, "/"): keep unreserved characters and '/',
percent-encode the rest byte-wise (the modelled strings are ASCII, so
one character is one byte). -/
def percentEncodeChars : List Char → List Char
  | [] => []
  | c :: rest =>
    if isUnreservedChar c || c = '/' then c :: percentEncodeChars rest
    else
      '%' :: hexDigitChar (c.toNat % 256 / 16) :: hexDigitChar (c.toNat % 16) ::
        percentEncodeChars rest

/-- QUrl::toPercentEncoding(s, "/") on strings. -/
def percentEncode (s : String) : String :=
  String.mk (percentEncodeChars s.data)

/-- Value of a hexadecimal digit character. -/
def hexVal (c : Char) : Option Nat :=
  if '0' ≤ c ∧ c ≤ '9' then some (c.toNat - 48)
  else if 'A' ≤ c ∧ c ≤ 'F' then some (c.toNat - 55)
  else if 'a' ≤ c ∧ c ≤ 'f' then some (c.toNat - 87)
  else none

/-- QUrl::fromPercentEncoding: decode %HH triples, pass everything else
through. -/
def percentDecodeChars : List Char → List Char
  | [] => []
  | '%' :: h1 :: h2 :: rest2 =>
    match hexVal h1, hexVal h2 with
    | some a, some b => Char.ofNat (16 * a + b) :: percentDecodeChars rest2
    | _, _ => '%' :: percentDecodeChars (h1 :: h2 :: rest2)
  | c :: rest => c :: percentDecodeChars rest

/-- QUrl::fromPercentEncoding on strings. -/
def percentDecode (s : String) : String :=
  String.mk (percentDecodeChars s.data)

/-- Result of a trash operation. -/
structure TrashResult where
  fs : Entry
  ok : Bool
  error : Option String

/-- trashFilesPath (kitaplik.cpp:1523). -/
def trashFilesPath (env : Env) : String :=
  qtCleanPath (qdirFilePath env.home (".local/share/Trash/files"))

/-- trashInfoPath (kitaplik.cpp:1529). -/
def trashInfoPath (env : Env) : String :=
  qtCleanPath (qdirFilePath env.home (".local/share/Trash/info"))

/-- isInsideTrashFiles (kitaplik.cpp:1535). -/
def isInsideTrashFiles (env : Env) (fs : Entry) (p : String) : Bool :=
  let normalized := normalizePathForFs fs env.cwd p
  let trashRoot := normalizePathForFs fs env.cwd (trashFilesPath env)
  normalized = trashRoot || strLeads (trashRoot ++ "/") normalized

/-- The sidecar text written next to a trashed item (kitaplik.cpp:1614). -/
def sidecarContent (env : Env) (originalPath : String) : String :=
  "[Trash Info]\n" ++ "Path=" ++ percentEncode originalPath ++ "\n" ++
    "DeletionDate=" ++ env.nowDate ++ "\n"

/-- The sidecar write at the end of moveToTrash (kitaplik.cpp:1607): a
failure to write it still reports overall success. -/
def writeSidecar (env : Env) (fs : Entry) (infoDirPath trashName targetPath : String) :
    TrashResult :=
  let infoFilePath := qdirFilePath infoDirPath (trashName ++ ".trashinfo")
  match (if env.openWriteOk infoFilePath
         then fsPut fs infoFilePath (Entry.file (sidecarContent env targetPath))
         else none) with
  | some fs' => ⟨fs', true, none⟩
  | none =>
    ⟨fs, true, some ("Moved to trash, but failed to write metadata for restore: " ++ trashName)⟩

/-- moveToTrash (kitaplik.cpp:1549): ensure the two trash roots, pick a
non-colliding name (KeepBoth algorithm on collision), rename with a
copy-plus-delete fallback, then write the sidecar. -/
def moveToTrash (env : Env) (fuel : Nat) (fs : Entry) (targetPath : String) : TrashResult :=
  let filesDirPath := trashFilesPath env
  let infoDirPath := trashInfoPath env
  match (if qIsDir fs filesDirPath then some fs else fsMkpath fs filesDirPath) with
  | none => ⟨fs, false, some ("Failed to initialize trash: " ++ filesDirPath)⟩
  | some fsA =>
    match (if qIsDir fsA infoDirPath then some fsA else fsMkpath fsA infoDirPath) with
    | none => ⟨fsA, false, some ("Failed to initialize trash info: " ++ infoDirPath)⟩
    | some fs1 =>
      let trashName0 := fileName targetPath
      let trashName1 := if blankStr trashName0 then "item-" ++ toString env.nowMs else trashName0
      let dest0 := qdirFilePath filesDirPath trashName1
      let collide := qExists fs1 dest0
      let destinationInTrash := if collide then engineMakeUnique env fs1 dest0 else dest0
      let trashName := if collide then fileName destinationInTrash else trashName1
      match (if env.renameOk targetPath destinationInTrash
             then fsRename fs1 targetPath destinationInTrash else none) with
      | some fs2 => writeSidecar env fs2 infoDirPath trashName targetPath
      | none =>
        let total := (totalBytesForPath fs1 fuel targetPath).toOption.getD 0
        let r := copyRecursivelyWithProgress env fuel fs1 targetPath destinationInTrash 0 total
          (fun _ _ _ => ConflictChoice.keepBoth)
        if r.ok then
          match removeRecursivelyM env r.fs targetPath with
          | ⟨fs3, true, _⟩ => writeSidecar env fs3 infoDirPath trashName targetPath
          | ⟨fs3, false, err⟩ =>
            ⟨fs3, false, some (orBlank err ("Failed to remove original: " ++ targetPath))⟩
        else ⟨r.fs, false, some (orBlank r.error ("Failed to move to trash: " ++ targetPath))⟩

/-- Scan of the sidecar lines for the first "Path=" line
(kitaplik.cpp:1641). -/
def parsePathLine : List String → Option String
  | [] => none
  | line :: rest =>
    if strLeads ("Path=") line then some (percentDecode (strDrop 5 line))
    else parsePathLine rest

/-- restoreFromTrash (kitaplik.cpp:1622): reject paths outside the trash
files root, read the sidecar's original path, disambiguate an occupied
original location with the KeepBoth algorithm, recreate missing
parents, rename back with a copy-plus-delete fallback, and remove the
sidecar only after the move succeeded. -/
def restoreFromTrash (env : Env) (fuel : Nat) (fs : Entry) (trashPath : String) : TrashResult :=
  let normalizedTrashPath := normalizePathForFs fs env.cwd trashPath
  if ¬ isInsideTrashFiles env fs normalizedTrashPath then
    ⟨fs, false, some ("Not a trash item: " ++ trashPath)⟩
  else
    let trashName := fileName normalizedTrashPath
    let infoFilePath := qdirFilePath (trashInfoPath env) (trashName ++ ".trashinfo")
    match statEntry fs infoFilePath with
    | some (Entry.file content) =>
      let originalPath := (parsePathLine (splitOnChar '\n' content)).getD ""
      if blankStr originalPath then
        ⟨fs, false, some ("Invalid restore metadata: " ++ trashName)⟩
      else
        let dest0 := normalizePathForFs fs env.cwd originalPath
        let destinationPath := if qExists fs dest0 then engineMakeUnique env fs dest0 else dest0
        let parentDir := dirName destinationPath
        match (if qIsDir fs parentDir then some fs else fsMkpath fs parentDir) with
        | none => ⟨fs, false, some ("Failed to recreate parent directory: " ++ parentDir)⟩
        | some fs1 =>
          match (if env.renameOk normalizedTrashPath destinationPath
                 then fsRename fs1 normalizedTrashPath destinationPath else none) with
          | some fs2 => ⟨(fsDel fs2 infoFilePath).getD fs2, true, none⟩
          | none =>
            let total := (totalBytesForPath fs1 fuel normalizedTrashPath).toOption.getD 0
            let r := copyRecursivelyWithProgress env fuel fs1 normalizedTrashPath
              destinationPath 0 total (fun _ _ _ => ConflictChoice.keepBoth)
            if r.ok then
              match removeRecursivelyM env r.fs normalizedTrashPath with
              | ⟨fs3, true, _⟩ => ⟨(fsDel fs3 infoFilePath).getD fs3, true, none⟩
              | ⟨fs3, false, err⟩ =>
                ⟨fs3, false,
                  some (orBlank err ("Failed to remove trashed item: " ++ normalizedTrashPath))⟩
            else ⟨r.fs, false, some (orBlank r.error ("Failed to restore: " ++ trashName))⟩
    | _ => ⟨fs, false, some ("Missing restore metadata: " ++ trashName)⟩

/-- One segment list is an initial run of another. -/
def startsSegs : List String → List String → Bool
  | [], _ => true
  | _ :: _, [] => false
  | a :: as, b :: bs => a = b && startsSegs as bs

/-- Number of children carrying a given name. -/
def countName : List (String × Entry) → String → Nat
  | [], _ => 0
  | (m, _) :: rest, n => (if m = n then 1 else 0) + countName rest n

/-- The path addresses an entry whose name occurs exactly once in its
parent directory, reached through existing directories. -/
def OnceP : Entry → List String → Prop
  | Entry.dir cs, [n] => countName cs n = 1
  | Entry.dir cs, n :: rest => ∃ c, findChild cs n = some c ∧ OnceP c rest
  | _, _ => False

/-- A well-formed path segment: nonempty, not a dot segment, and free of
the separator. -/
def goodSeg (s : String) : Prop :=
  s ≠ "" ∧ s ≠ "." ∧ s ≠ ".." ∧ '/' ∉ s.data

/-- Entry kinds at which resolution may stop (neither directory nor
symbolic link). -/
def notDirSym : Entry → Bool
  | Entry.dir _ => false
  | Entry.symlink _ => false
  | _ => true

/-- The segments extend the base through existing directories, one
well-formed segment at a time. -/
def DirChain (fs : Entry) : List String → List String → Prop
  | _, [] => True
  | b, s :: rest =>
    goodSeg s ∧ (∃ cs, lookupSegs fs (b ++ [s]) = some (Entry.dir cs)) ∧
      DirChain fs (b ++ [s]) rest


/-- Shape of a successful resolution result: either a directory chain
from the root, or such a chain plus one final non-directory,
non-symlink entry. -/
def CanonOut (fs : Entry) (out : List String) : Prop :=
  DirChain fs [] out ∨
    ∃ m s e, out = m ++ [s] ∧ DirChain fs [] m ∧ goodSeg s ∧
      lookupSegs fs out = some e ∧ notDirSym e = true


/-- Progress-event chain invariant: starting from doneBytes d0, the
event list's doneBytes components are non-decreasing and end no higher
than d1. -/
def Prog (d0 : Nat) : List (Nat × Nat) → Nat → Prop
  | [], d1 => d0 ≤ d1
  | (a, _) :: rest, d1 => d0 ≤ a ∧ Prog a rest d1

/-- Characters of the plain (lowercase-alphanumeric) names used by the
symbolic trash round-trip theorem. -/
def plainChars : List Char :=
  ['a', 'b', 'c', 'd', 'e', 'f', 'g', 'h', 'i', 'j', 'k', 'l', 'm',
   'n', 'o', 'p', 'q', 'r', 's', 't', 'u', 'v', 'w', 'x', 'y', 'z',
   '0', '1', '2', '3', '4', '5', '6', '7', '8', '9']

/-- A nonempty name all of whose characters are plain. -/
def plainName (n : String) : Bool :=
  ¬ n.data.isEmpty && n.data.all (fun c => plainChars.contains c)

/-- Fixture: a file beside an empty directory. -/
def fsCancelCex : Entry :=
  Entry.dir [("s", Entry.file "hello"), ("d", Entry.dir [])]

/-- Fixture: a file beside a directory that already contains a file of
the same name. -/
def fsCollide : Entry :=
  Entry.dir [("s", Entry.file "hello"), ("d", Entry.dir [("s", Entry.file "old")])]

/-- Fixture: a regular file and a symbolic link to it. -/
def fsSymCex : Entry :=
  Entry.dir [("f", Entry.file "hello"), ("l", Entry.symlink "/f")]

/-- Fixture for the progress-overcount run: /X/E/A/h holds 9 bytes and
/D/E/A/g holds 7 bytes. -/
def fsOvercount : Entry :=
  Entry.dir
    [("X", Entry.dir [("E", Entry.dir [("A", Entry.dir [("h", Entry.file "123456789")])])]),
     ("D", Entry.dir [("E", Entry.dir [("A", Entry.dir [("g", Entry.file "1234567")])])])]

/-- Fixture: a directory holding one file. -/
def fsSelf : Entry :=
  Entry.dir [("d", Entry.dir [("s", Entry.file "abc")])]

/-- Environment in which the path /d/s is not writable. -/
def envNoWrite : Env :=
  ⟨"/", "/home/user", 0, "2024-01-01T00:00:00",
   fun p => ¬ p = "/d/s", fun _ => false, fun _ => true, fun _ _ => true,
   fun _ => true, none, none⟩

/-- Fixture for the move theorem: an empty destination directory and a
source file with the given content. -/
def fsMove (c : String) : Entry :=
  Entry.dir [("d", Entry.dir []), ("s", Entry.file c)]

/-- Environment in which the direct rename of /s fails (as a cross-device
move makes it fail), while everything else succeeds. -/
def envNoRename : Env :=
  ⟨"/", "/home/user", 0, "2024-01-01T00:00:00",
   fun _ => true, fun _ => false, fun _ => true, fun a _ => ¬ a = "/s",
   fun _ => true, none, none⟩

/-- Environment in which the direct rename of /s fails and so does the
post-copy deletion of /s. -/
def envNoRenameNoRemove : Env :=
  ⟨"/", "/home/user", 0, "2024-01-01T00:00:00",
   fun _ => true, fun _ => false, fun p => ¬ p = "/s", fun a _ => ¬ a = "/s",
   fun _ => true, none, none⟩

/-- Environment in which every rename fails, so the final move of the
temporary file onto the destination cannot be performed. -/
def envNoFinal : Env :=
  ⟨"/", "/home/user", 0, "2024-01-01T00:00:00",
   fun _ => true, fun _ => false, fun _ => true, fun _ _ => false,
   fun _ => true, none, none⟩

/-- Fixture for the trash round-trip: an initialized empty trash and a
file named n with content c under /data. -/
def fsTrash (n c : String) : Entry :=
  Entry.dir
    [("home", Entry.dir [("user", Entry.dir [(".local", Entry.dir [("share",
        Entry.dir [("Trash", Entry.dir [("files", Entry.dir []),
          ("info", Entry.dir [])])])])])]),
     ("data", Entry.dir [(n, Entry.file c)])]

/-- The tree after trashing /data/g: the file sits in the trash files
directory and its sidecar in the trash info directory. -/
def fsTrashMid (c : String) : Entry :=
  Entry.dir
    [("home", Entry.dir [("user", Entry.dir [(".local", Entry.dir [("share",
        Entry.dir [("Trash", Entry.dir
          [("files", Entry.dir [("g", Entry.file c)]),
           ("info", Entry.dir [("g.trashinfo",
             Entry.file "[Trash Info]\nPath=/data/g\nDeletionDate=2024-01-01T00:00:00\n")])])])])])]),
     ("data", Entry.dir [])]

/-- The trashed-state tree with /data/g reoccupied by new content. -/
def fsTrashMid2 (c c2 : String) : Entry :=
  Entry.dir
    [("home", Entry.dir [("user", Entry.dir [(".local", Entry.dir [("share",
        Entry.dir [("Trash", Entry.dir
          [("files", Entry.dir [("g", Entry.file c)]),
           ("info", Entry.dir [("g.trashinfo",
             Entry.file "[Trash Info]\nPath=/data/g\nDeletionDate=2024-01-01T00:00:00\n")])])])])])]),
     ("data", Entry.dir [("g", Entry.file c2)])]

/-- The tree after restoring the trashed item to a free /data/g. -/
def fsTrashBack (c : String) : Entry :=
  Entry.dir
    [("home", Entry.dir [("user", Entry.dir [(".local", Entry.dir [("share",
        Entry.dir [("Trash", Entry.dir
          [("files", Entry.dir []), ("info", Entry.dir [])])])])])]),
     ("data", Entry.dir [("g", Entry.file c)])]

/-- The tree after restoring beside a reoccupied /data/g: the restore
lands at the KeepBoth sibling and the occupier stays. -/
def fsTrashBack2 (c c2 : String) : Entry :=
  Entry.dir
    [("home", Entry.dir [("user", Entry.dir [(".local", Entry.dir [("share",
        Entry.dir [("Trash", Entry.dir
          [("files", Entry.dir []), ("info", Entry.dir [])])])])])]),
     ("data", Entry.dir [("g", Entry.file c2), ("g (copy)", Entry.file c)])]

/-- The trashed-state tree after the restore rename, sidecar still
present. -/
def fsTrashMid3 (c : String) : Entry :=
  Entry.dir
    [("home", Entry.dir [("user", Entry.dir [(".local", Entry.dir [("share",
        Entry.dir [("Trash", Entry.dir
          [("files", Entry.dir []),
           ("info", Entry.dir [("g.trashinfo",
             Entry.file "[Trash Info]\nPath=/data/g\nDeletionDate=2024-01-01T00:00:00\n")])])])])])]),
     ("data", Entry.dir [("g", Entry.file c)])]

/-- The reoccupied trashed-state tree after the restore rename to the
KeepBoth sibling, sidecar still present. -/
def fsTrashMid4 (c c2 : String) : Entry :=
  Entry.dir
    [("home", Entry.dir [("user", Entry.dir [(".local", Entry.dir [("share",
        Entry.dir [("Trash", Entry.dir
          [("files", Entry.dir []),
           ("info", Entry.dir [("g.trashinfo",
             Entry.file "[Trash Info]\nPath=/data/g\nDeletionDate=2024-01-01T00:00:00\n")])])])])])]),
     ("data", Entry.dir [("g", Entry.file c2), ("g (copy)", Entry.file c)])]

/-- Existence oracle of a directory /a holding b.txt and b (copy).txt. -/
def exOneTaken : String → Bool :=
  fun p => p == "/a/b.txt" || p == "/a/b (copy).txt"

/-- Existence oracle of a directory /a holding b.txt, b (copy).txt and
b (copy 2).txt. -/
def exTwoTaken : String → Bool :=
  fun p => p == "/a/b.txt" || p == "/a/b (copy).txt" || p == "/a/b (copy 2).txt"

/-- The resolver that always cancels. -/
def cancelResolver : Resolver := fun _ _ _ => ConflictChoice.cancel

/-- The resolver that always skips. -/
def skipResolver : Resolver := fun _ _ _ => ConflictChoice.skip

/-- The resolver that always replaces. -/
def replaceResolver : Resolver := fun _ _ _ => ConflictChoice.replace

/-! Helper lemmas. -/

theorem conflictGate_cancel (env : Env) (fs : Entry) (src dest : String) (b : Bool)
    (rv : Resolver) (done : Nat) (hdest : qExists fs dest = true)
    (hrv : rv src dest b = ConflictChoice.cancel) :
    conflictGate env fs src dest b rv done =
      GateOut.stop ⟨fs, done, [], false, true, some ("Operation cancelled.")⟩ := by
  simp [conflictGate, hdest, hrv]

/-! Claim C1. -/

/-- C1: counterexample. The spec claims cancellation is polled at the top
of every sibling iteration and before each file copy, and that once
observed the run stops with Cancelled and no further mutation. In the
code the only cancellation channel is the conflict resolver, which is
consulted only on a destination collision: with the resolver demanding
Cancel from the start, a collision-free copy of /s to /d/s runs to
completion, writes the destination, and reports success, not
Cancelled. -/
theorem claim_C1_counterexample :
    (copyRecursivelyWithProgress envOk 5 fsCancelCex "/s" "/d/s" 0 5 cancelResolver).ok = true ∧
    (copyRecursivelyWithProgress envOk 5 fsCancelCex "/s" "/d/s" 0 5 cancelResolver).cancelled
      = false ∧
    statEntry fsCancelCex "/d/s" = none ∧
    statEntry (copyRecursivelyWithProgress envOk 5 fsCancelCex "/s" "/d/s" 0 5
      cancelResolver).fs "/d/s" = some (Entry.file "hello") :=
  ⟨rfl, rfl, rfl, rfl⟩

/-- C1 (amended): cancellation is observed only at conflict-resolution
points. When the destination of the current entry collides and the
resolver answers Cancel, the recursive copy returns immediately with
the filesystem unchanged, no progress events, and the Cancelled
outcome; and the paste loop then stops without touching the remaining
sources and without recording a per-source error. -/
theorem claim_C1_cancel_at_conflict (env : Env) (fuel : Nat) (fs : Entry)
    (destDir s : String) (rest : List String) (i done total : Nat)
    (per : List Nat) (rv : Resolver)
    (hex : qExists fs s = true)
    (hdp : qExists fs (qdirFilePath destDir (fileName s)) = true)
    (hne : ¬ qtCleanPath s = qtCleanPath (qdirFilePath destDir (fileName s)))
    (hrv : ∀ b, rv s (qdirFilePath destDir (fileName s)) b = ConflictChoice.cancel) :
    copyRecursivelyWithProgress env (fuel + 1) fs s (qdirFilePath destDir (fileName s))
        done total rv = ⟨fs, done, [], false, true, some ("Operation cancelled.")⟩ ∧
    pasteLoop env (fuel + 1) destDir false rv total fs (s :: rest) i per done
      = ⟨fs, done, [], [], true⟩ := by
  have hgate : ∀ b, conflictGate env fs s (qdirFilePath destDir (fileName s)) b rv done =
      GateOut.stop ⟨fs, done, [], false, true, some ("Operation cancelled.")⟩ :=
    fun b => conflictGate_cancel env fs s _ b rv done hdp (hrv b)
  have h1 : copyRecursivelyWithProgress env (fuel + 1) fs s
      (qdirFilePath destDir (fileName s)) done total rv =
      ⟨fs, done, [], false, true, some ("Operation cancelled.")⟩ := by
    rw [copyRecursivelyWithProgress]
    simp only [hex, Bool.not_true, Bool.false_eq_true, if_false]
    rw [hgate false, hgate true]
    simp [copyFileWithProgress, hgate false]
  refine ⟨h1, ?_⟩
  rw [pasteLoop]
  simp only [hex, Bool.not_true, Bool.false_eq_true, if_false, if_neg hne]
  rw [h1]
  simp

/-- C1: witness for the amended theorem at a concrete collision. -/
theorem claim_C1_cancel_at_conflict_witness :
    copyRecursivelyWithProgress envOk 3 fsCollide "/s" (qdirFilePath "/d" (fileName "/s"))
        7 9 cancelResolver = ⟨fsCollide, 7, [], false, true, some ("Operation cancelled.")⟩ ∧
    pasteLoop envOk 3 "/d" false cancelResolver 9 fsCollide ["/s", "/x"] 0 [5, 0] 7
      = ⟨fsCollide, 7, [], [], true⟩ :=
  claim_C1_cancel_at_conflict envOk 2 fsCollide "/d" "/s" ["/x"] 0 7 9 [5, 0]
    cancelResolver rfl rfl (by decide) (fun _ => rfl)

/-! Claim C2. -/

/-- C2: counterexample. The spec claims the tree-size computation
returns 0 for a symbolic link (the link not being followed). The code
tests isFile before isSymLink, and QFileInfo::isFile follows links: for
the link /l to the 5-byte file /f, the size computation returns 5, and
listing a directory that contains both counts the file twice. -/
theorem claim_C2_counterexample :
    qIsSymLink fsSymCex "/l" = true ∧
    totalBytesForPath fsSymCex 3 "/l" = Except.ok 5 ∧
    totalBytesForPath fsSymCex 3 "/" = Except.ok 10 :=
  ⟨rfl, rfl, rfl⟩

/-- C2 (amended): the tree-size computation returns 0 when the path does
not stat (including through a dangling link); the target's size when
the path stats as a regular file, including a symlink to a regular
file; 0 for a symlink whose target is not a regular file; the sum over
the listed (non-hidden, file-or-directory) children for a directory;
and the UnsupportedType error when the path itself is another entry
type. -/
theorem claim_C2_totalBytes_cases (fs : Entry) (fuel : Nat) (p : String) :
    (qExists fs p = false → totalBytesForPath fs (fuel + 1) p = Except.ok 0) ∧
    (∀ c, statEntry fs p = some (Entry.file c) →
      totalBytesForPath fs (fuel + 1) p = Except.ok c.length) ∧
    (∀ t, lstatEntry fs p = some (Entry.symlink t) → qIsFile fs p = false →
      qExists fs p = true → totalBytesForPath fs (fuel + 1) p = Except.ok 0) ∧
    (∀ cs, statEntry fs p = some (Entry.dir cs) → qIsSymLink fs p = false →
      totalBytesForPath fs (fuel + 1) p =
        totalBytesChildren (totalBytesForPath fs fuel) p (cs.filter (isListed fs p))) ∧
    (statEntry fs p = some Entry.other → qIsSymLink fs p = false →
      totalBytesForPath fs (fuel + 1) p = Except.error ("Unsupported file type: " ++ p)) := by
  refine ⟨?_, ?_, ?_, ?_, ?_⟩
  · intro h
    rw [totalBytesForPath]
    simp [h]
  · intro c h
    rw [totalBytesForPath]
    simp [qExists, qIsFile, qFileSize, h]
  · intro t hl hf he
    rw [totalBytesForPath]
    simp [he, hf, qIsSymLink, hl]
  · intro cs h hs
    rw [totalBytesForPath]
    simp [qExists, qIsFile, qIsDir, h, hs]
  · intro h hs
    rw [totalBytesForPath]
    simp [qExists, qIsFile, qIsDir, h, hs]

/-- C2: witness for the amended theorem, at the regular file /f, the
symlink /l to it, and the root directory of the fixture. -/
theorem claim_C2_totalBytes_cases_witness :
    totalBytesForPath fsSymCex 1 "/f" = Except.ok 5 ∧
    totalBytesForPath fsSymCex 1 "/missing" = Except.ok 0 :=
  ⟨(claim_C2_totalBytes_cases fsSymCex 0 "/f").2.1 "hello" rfl,
   (claim_C2_totalBytes_cases fsSymCex 0 "/missing").1 rfl⟩

/-! Claim C7. -/

/-- C7: pasting a regular file onto an occupied destination with the
resolver answering Skip leaves the whole filesystem (in particular the
destination) unchanged, succeeds, and advances progress by exactly the
source file's size, recomputed at skip time. -/
theorem claim_C7_skip_frame (env : Env) (fuel : Nat) (fs : Entry)
    (src dest : String) (done total : Nat) (rv : Resolver) (c : String)
    (h1 : statEntry fs src = some (Entry.file c))
    (h2 : qIsSymLink fs src = false)
    (h3 : qExists fs dest = true)
    (h4 : rv src dest false = ConflictChoice.skip) :
    copyRecursivelyWithProgress env (fuel + 2) fs src dest done total rv =
      ⟨fs, done + c.length, if total > 0 then [(done + c.length, total)] else [],
        true, false, none⟩ := by
  rw [copyRecursivelyWithProgress]
  have h3' : (statEntry fs dest).isSome = true := h3
  simp [qExists, qIsDir, qIsFile, qFileSize, h1, h2, copyFileWithProgress,
    conflictGate, h3', h4, advanceProgressByPathSize, totalBytesForPath]

/-- C7: witness at a concrete collision; the 5-byte file /s is skipped,
progress advances from 0 to 5 of 9, and the filesystem is untouched. -/
theorem claim_C7_skip_frame_witness :
    copyRecursivelyWithProgress envOk 4 fsCollide "/s" "/d/s" 0 9 skipResolver =
      ⟨fsCollide, 5, [(5, 9)], true, false, none⟩ :=
  claim_C7_skip_frame envOk 2 fsCollide "/s" "/d/s" 0 9 skipResolver "hello"
    rfl rfl rfl rfl

/-! Claim C10. -/

/-- C10: counterexample. The spec claims a source that cleans to its own
destination is skipped with no error recorded. For a cut paste, the
source-writability guard runs before the self-paste check: cutting the
unwritable /d/s onto /d records "Permission denied" even though the
paste would have been skipped. -/
theorem claim_C10_counterexample :
    (pasteRun envNoWrite 5 fsSelf ["/d/s"] "/d" true skipResolver).errors
        = ["Permission denied: /d/s"] ∧
    qtCleanPath "/d/s" = qtCleanPath (qdirFilePath "/d" (fileName "/d/s")) :=
  ⟨rfl, rfl⟩

/-- C10 (amended): a source whose cleaned path equals the cleaned path
of its destination entry is skipped entirely — nothing is written, no
progress is credited, and no error is recorded — provided its size scan
succeeded and, for a cut, the source-writability guard passes (that
guard runs before the self-paste check and otherwise records its
error). -/
theorem claim_C10_self_paste_skip (env : Env) (fuel : Nat) (fs0 : Entry)
    (s destDirInput : String) (isCut : Bool) (rv : Resolver) (sz : Nat)
    (hscan : totalBytesForPath fs0 fuel s = Except.ok sz)
    (hex : qExists fs0 s = true)
    (hw : isCut = true → ensureWritableTarget env fs0 s = (true, none))
    (heq : qtCleanPath s =
      qtCleanPath (qdirFilePath (normalizePathForFs fs0 env.cwd destDirInput) (fileName s))) :
    pasteRun env fuel fs0 [s] destDirInput isCut rv =
      ⟨fs0, 0, sz, [(0, sz), (0, sz)], [], false, isCut⟩ := by
  have hscan' : pasteScan fs0 fuel [s] = ([], [sz], sz) := by
    simp [pasteScan, hscan]
  have hloop : pasteLoop env fuel (normalizePathForFs fs0 env.cwd destDirInput) isCut rv sz
      fs0 [s] 0 [sz] 0 = ⟨fs0, 0, [], [], false⟩ := by
    rw [pasteLoop]
    cases hc : isCut
    · simp [hex, heq, pasteLoop]
    · simp [hex, hw hc, heq, pasteLoop]
  simp [pasteRun, hscan', hloop]

/-- C10: witness — copy-pasting /d/s onto /d is skipped with no error,
no progress, and no mutation. -/
theorem claim_C10_self_paste_skip_witness :
    pasteRun envOk 3 fsSelf ["/d/s"] "/d" false skipResolver =
      ⟨fsSelf, 0, 3, [(0, 3), (0, 3)], [], false, false⟩ :=
  claim_C10_self_paste_skip envOk 3 fsSelf "/d/s" "/d" false skipResolver 3
    rfl rfl (fun h => by cases h) rfl

/-! Claim C3. -/

theorem keepBothProbe_all_true (ex : String → Bool) (cand : Nat → String)
    (h : ∀ j, ex (cand j) = true) : ∀ r i, keepBothProbe ex cand i r = none := by
  intro r
  induction r with
  | zero => intro i; rfl
  | succ r ih =>
    intro i
    rw [keepBothProbe]
    simp [h i, ih]

theorem keepBothProbe_free (ex : String → Bool) (cand : Nat → String) :
    ∀ r i c, keepBothProbe ex cand i r = some c → ex c = false := by
  intro r
  induction r with
  | zero => intro i c h; cases h
  | succ r ih =>
    intro i c h
    rw [keepBothProbe] at h
    by_cases hx : ex (cand i) = true
    · simp [hx] at h
      exact ih (i + 1) c h
    · simp at hx
      simp [hx] at h
      rw [← h]
      exact hx

theorem keepBothProbe_finds (ex : String → Bool) (cand : Nat → String) :
    ∀ r i j, i ≤ j → j < i + r → ex (cand j) = false →
      ∃ c, keepBothProbe ex cand i r = some c := by
  intro r
  induction r with
  | zero => intro i j hij hj _; omega
  | succ r ih =>
    intro i j hij hj hfree
    rw [keepBothProbe]
    by_cases hx : ex (cand i) = true
    · simp [hx]
      have hne : i ≠ j := by
        intro h
        rw [h, hfree] at hx
        cases hx
      exact ih (i + 1) j (by omega) (by omega) hfree
    · simp at hx
      simp [hx]

theorem keepBoth_fresh (ex isdir : String → Bool) (now : Nat) (dest : String) (j : Nat)
    (h1 : 1 ≤ j) (h2 : j < 10001)
    (hfree : ex (qdirFilePath (dirName dest)
      (kbCandName (kbBase isdir dest) (kbSuffix isdir dest) j)) = false) :
    ex (makeUniqueKeepBothPath ex isdir now dest) = false := by
  obtain ⟨c, hc⟩ := keepBothProbe_finds ex
    (fun i => qdirFilePath (dirName dest)
      (kbCandName (kbBase isdir dest) (kbSuffix isdir dest) i))
    10000 1 j h1 (by omega) hfree
  rw [makeUniqueKeepBothPath]
  rw [hc]
  exact keepBothProbe_free _ _ _ _ _ hc

/-- C3: counterexample. The spec claims the unique-name generator never
returns a path that exists at call time. When all 10000 probed
candidates exist (a directory holding files of every candidate name),
the timestamp fallback is returned without any existence check: with an
existence oracle answering true on every queried path, the generator
returns the fallback name, which the oracle reports as existing. -/
theorem claim_C3_counterexample :
    makeUniqueKeepBothPath (fun _ => true) (fun _ => false) 99 "/a/b.txt"
        = "/a/b (99).txt" ∧
    (fun _ => true) "/a/b (99).txt" = true := by
  constructor
  · have h := keepBothProbe_all_true (fun _ => true)
      (fun i => qdirFilePath (dirName "/a/b.txt")
        (kbCandName (kbBase (fun _ => false) "/a/b.txt")
          (kbSuffix (fun _ => false) "/a/b.txt") i))
      (fun _ => rfl) 10000 1
    rw [makeUniqueKeepBothPath, h]
    rfl
  · rfl

/-- C3 (amended): whenever at least one of the 10000 probed candidates
is free, the generator returns the first free candidate, which does not
exist at call time; and two successive calls — the second made after
the first result was created, with a free candidate still available —
return distinct names. The timestamp fallback taken when all 10000
candidates are occupied is returned without an existence check. -/
theorem claim_C3_keepBoth_unique
    (ex ex' isdir isdir' : String → Bool) (now now' : Nat) (dest dest' : String)
    (j j' : Nat) (h1 : 1 ≤ j) (h2 : j < 10001)
    (hfree : ex (qdirFilePath (dirName dest)
      (kbCandName (kbBase isdir dest) (kbSuffix isdir dest) j)) = false)
    (h1' : 1 ≤ j') (h2' : j' < 10001)
    (hfree' : ex' (qdirFilePath (dirName dest')
      (kbCandName (kbBase isdir' dest') (kbSuffix isdir' dest') j')) = false)
    (hcreated : ex' (makeUniqueKeepBothPath ex isdir now dest) = true) :
    ex (makeUniqueKeepBothPath ex isdir now dest) = false ∧
    makeUniqueKeepBothPath ex' isdir' now' dest' ≠ makeUniqueKeepBothPath ex isdir now dest := by
  refine ⟨keepBoth_fresh ex isdir now dest j h1 h2 hfree, ?_⟩
  intro heq
  have h := keepBoth_fresh ex' isdir' now' dest' j' h1' h2' hfree'
  rw [heq, hcreated] at h
  cases h

/-- C3: witness. With b.txt and b (copy).txt taken, the generator
returns b (copy 2).txt; after creating it, the next call returns the
distinct b (copy 3).txt. -/
theorem claim_C3_keepBoth_unique_witness :
    exOneTaken (makeUniqueKeepBothPath exOneTaken (fun _ => false) 0 "/a/b.txt") = false ∧
    makeUniqueKeepBothPath exTwoTaken (fun _ => false) 0 "/a/b.txt"
      ≠ makeUniqueKeepBothPath exOneTaken (fun _ => false) 0 "/a/b.txt" :=
  claim_C3_keepBoth_unique exOneTaken exTwoTaken (fun _ => false) (fun _ => false)
    0 0 "/a/b.txt" "/a/b.txt" 2 3 (by omega) (by omega) rfl (by omega) (by omega) rfl rfl

/-! Claim C4. -/

/-- C4: counterexample. The up-front total of the two sources /X/E
(9 bytes) and /D/E/A (7 bytes) is 16; pasting them into /D with the
resolver answering Replace first replaces /D/E by a copy of /X/E —
thereby recreating /D/E/A with 9 bytes — and then copies the recreated
/D/E/A to /D/A, crediting its bytes again. The run succeeds with final
doneBytes 18, exceeding the totalBytes 16 computed up front. -/
theorem claim_C4_counterexample :
    (pasteRun envOk 10 fsOvercount ["/X/E", "/D/E/A"] "/D" false replaceResolver).errors = [] ∧
    (pasteRun envOk 10 fsOvercount ["/X/E", "/D/E/A"] "/D" false replaceResolver).cancelled
      = false ∧
    (pasteRun envOk 10 fsOvercount ["/X/E", "/D/E/A"] "/D" false replaceResolver).total = 16 ∧
    (pasteRun envOk 10 fsOvercount ["/X/E", "/D/E/A"] "/D" false replaceResolver).done = 18 ∧
    (pasteRun envOk 10 fsOvercount ["/X/E", "/D/E/A"] "/D" false replaceResolver).events
      = [(0, 16), (9, 16), (18, 16), (18, 16)] ∧
    16 < 18 :=
  ⟨rfl, rfl, rfl, rfl, rfl, by omega⟩

@[simp]
theorem Prog_nil {d0 d1 : Nat} : Prog d0 [] d1 ↔ d0 ≤ d1 := Iff.rfl

@[simp]
theorem Prog_cons {d0 d1 a t : Nat} {rest : List (Nat × Nat)} :
    Prog d0 ((a, t) :: rest) d1 ↔ d0 ≤ a ∧ Prog a rest d1 := Iff.rfl

theorem Prog.le {d0 d1 : Nat} : ∀ {e : List (Nat × Nat)}, Prog d0 e d1 → d0 ≤ d1
  | [], h => h
  | (a, _) :: rest, h => Nat.le_trans h.1 (Prog.le h.2)

theorem Prog.mono_left {d0 dm d1 : Nat} (hle : d0 ≤ dm) :
    ∀ {e : List (Nat × Nat)}, Prog dm e d1 → Prog d0 e d1
  | [], h => Nat.le_trans hle h
  | (a, _) :: rest, h => ⟨Nat.le_trans hle h.1, h.2⟩

theorem Prog.append {d0 dm d1 : Nat} :
    ∀ {e1 e2 : List (Nat × Nat)}, Prog d0 e1 dm → Prog dm e2 d1 → Prog d0 (e1 ++ e2) d1
  | [], e2, h1, h2 => Prog.mono_left h1 h2
  | (a, _) :: rest, e2, h1, h2 => ⟨h1.1, Prog.append h1.2 h2⟩

theorem prog_copyChunks (env : Env) (s t : String) (total : Nat) :
    ∀ (l : List (List Char)) (i done : Nat),
      Prog done (copyChunks env s t total l i done).1 (copyChunks env s t total l i done).2.1 := by
  intro l
  induction l with
  | nil => intro i done; exact Nat.le_refl done
  | cons c rest ih =>
    intro i done
    rw [copyChunks]
    by_cases h1 : env.readFailAt = some i
    · simp [h1]
    · by_cases h2 : env.writeFailAt = some i
      · simp [h1, h2]
      · rcases hcc : copyChunks env s t total rest (i + 1) (done + c.length)
          with ⟨evs, dfin, err⟩
        have hih := ih (i + 1) (done + c.length)
        rw [hcc] at hih
        simp only [h1, h2, if_false, hcc]
        exact ⟨Nat.le_add_right done c.length, hih⟩

theorem prog_adv (fs : Entry) (fuel : Nat) (p : String) (done total : Nat) :
    Prog done (advanceProgressByPathSize fs fuel p done total).events
      (advanceProgressByPathSize fs fuel p done total).done := by
  unfold advanceProgressByPathSize
  match totalBytesForPath fs fuel p with
  | Except.error e => exact Nat.le_refl done
  | Except.ok sz =>
    by_cases h : total > 0
    · simpa [h] using ⟨Nat.le_add_right done sz, Nat.le_refl _⟩
    · simpa [h] using Nat.le_add_right done sz

theorem prog_fileBody (env : Env) (fs : Entry) (s d : String) (done total : Nat) :
    Prog done (copyFileBody env fs s d done total).events
      (copyFileBody env fs s d done total).done := by
  unfold copyFileBody
  match statEntry fs s with
  | none => exact Nat.le_refl done
  | some (Entry.dir cs) => exact Nat.le_refl done
  | some (Entry.symlink t) => exact Nat.le_refl done
  | some Entry.other => exact Nat.le_refl done
  | some (Entry.file content) =>
    by_cases h1 : (lookupSegs fs (pathSegs (tempPathFor env d))).isSome
    · simp [h1]
    · simp only [h1, Bool.false_eq_true, if_false]
      match fsPut fs (tempPathFor env d) (Entry.file "") with
      | none => exact Nat.le_refl done
      | some fs1 =>
        have hp := prog_copyChunks env s (tempPathFor env d) total
          (chunkChars content.data) 0 done
        match hcc : copyChunks env s (tempPathFor env d) total (chunkChars content.data) 0 done with
        | (evs, d1, some err) =>
          rw [hcc] at hp
          exact hp
        | (evs, d1, none) =>
          rw [hcc] at hp
          simp only []
          by_cases h2 : qExists ((fsPut fs1 (tempPathFor env d) (Entry.file content)).getD fs1) d
          · by_cases h3 : env.removeOk d
            · simp only [h2, h3, if_true]
              unfold finalizeRename
              match (if env.renameOk (tempPathFor env d) d then
                  fsRename ((fsDel ((fsPut fs1 (tempPathFor env d)
                    (Entry.file content)).getD fs1) d).getD
                      ((fsPut fs1 (tempPathFor env d) (Entry.file content)).getD fs1))
                    (tempPathFor env d) d else none) with
              | some fs' => exact hp
              | none => exact hp
            · simp only [h2, h3, if_true, if_false]
              exact hp
          · simp only [h2, if_false]
            unfold finalizeRename
            match (if env.renameOk (tempPathFor env d) d then
                fsRename ((fsPut fs1 (tempPathFor env d) (Entry.file content)).getD fs1)
                  (tempPathFor env d) d else none) with
            | some fs' => exact hp
            | none => exact hp

theorem gate_stop_frame (env : Env) (fs : Entry) (s d : String) (b : Bool)
    (rv : Resolver) (done : Nat) (r : CopyResult)
    (h : conflictGate env fs s d b rv done = GateOut.stop r) :
    r.events = [] ∧ r.done = done := by
  unfold conflictGate at h
  by_cases he : qExists fs d
  · simp only [he, if_true] at h
    match hrv : rv s d b with
    | ConflictChoice.cancel =>
      rw [hrv] at h
      cases h
      exact ⟨rfl, rfl⟩
    | ConflictChoice.skip => rw [hrv] at h; cases h
    | ConflictChoice.keepBoth => rw [hrv] at h; cases h
    | ConflictChoice.replace =>
      rw [hrv] at h
      match hrm : removeRecursivelyM env fs d with
      | ⟨fs', true, e⟩ => rw [hrm] at h; cases h
      | ⟨fs', false, e⟩ =>
        rw [hrm] at h
        cases h
        exact ⟨rfl, rfl⟩
  · simp only [he, Bool.false_eq_true, if_false] at h
    cases h

theorem prog_symstep (fs0 fs' : Entry) (s dp : String) (done : Nat) :
    Prog done (copySymlinkStep fs0 fs' s dp done).events
      (copySymlinkStep fs0 fs' s dp done).done := by
  unfold copySymlinkStep
  by_cases h1 : blankStr (qSymLinkTarget fs0 s)
  · simp [h1]
  · simp only [h1, Bool.false_eq_true, if_false]
    match (if (lookupSegs fs' (pathSegs dp)).isSome then none
           else fsPut fs' dp (Entry.symlink (qSymLinkTarget fs0 s))) with
    | some fs'' => exact Nat.le_refl done
    | none => exact Nat.le_refl done

theorem prog_copyFile (env : Env) (fuel : Nat) (fs : Entry) (s d : String)
    (done total : Nat) (rv : Resolver) :
    Prog done (copyFileWithProgress env fuel fs s d done total rv).events
      (copyFileWithProgress env fuel fs s d done total rv).done := by
  unfold copyFileWithProgress
  match hg : conflictGate env fs s d false rv done with
  | GateOut.stop r =>
    have := gate_stop_frame env fs s d false rv done r hg
    simp [this.1, this.2]
  | GateOut.skip => exact prog_adv fs fuel s done total
  | GateOut.go fs' dp => exact prog_fileBody env fs' s dp done total

theorem prog_children (step : Entry → String → String → Nat → CopyResult)
    (sb db : String)
    (hstep : ∀ f sp dp d, Prog d (step f sp dp d).events (step f sp dp d).done) :
    ∀ (names : List String) (fs : Entry) (done : Nat),
      Prog done (copyChildren step sb db names fs done).events
        (copyChildren step sb db names fs done).done := by
  intro names
  induction names with
  | nil => intro fs done; exact Nat.le_refl done
  | cons n rest ih =>
    intro fs done
    rw [copyChildren]
    by_cases h : (step fs (qdirFilePath sb n) (qdirFilePath db n) done).ok
    · simpa [h] using Prog.append (hstep fs _ _ done) (ih _ _)
    · simpa [h] using hstep fs _ _ done

theorem prog_copyRec : ∀ (fuel : Nat) (env : Env) (fs : Entry) (s dp : String)
    (done total : Nat) (rv : Resolver),
    Prog done (copyRecursivelyWithProgress env fuel fs s dp done total rv).events
      (copyRecursivelyWithProgress env fuel fs s dp done total rv).done := by
  intro fuel
  induction fuel with
  | zero => intro env fs s dp done total rv; exact Nat.le_refl done
  | succ fuel ih =>
    intro env fs s dp done total rv
    rw [copyRecursivelyWithProgress]
    by_cases h1 : qExists fs s
    · simp only [h1, Bool.not_true, Bool.false_eq_true, if_false]
      by_cases h2 : qIsSymLink fs s
      · simp only [h2, if_true]
        match hg : conflictGate env fs s dp false rv done with
        | GateOut.stop r =>
          have := gate_stop_frame env fs s dp false rv done r hg
          simp [this.1, this.2]
        | GateOut.skip => exact Nat.le_refl done
        | GateOut.go fs' dp' => exact prog_symstep fs fs' s dp' done
      · simp only [h2, Bool.false_eq_true, if_false]
        by_cases h3 : qIsDir fs s
        · simp only [h3, if_true]
          match hg : conflictGate env fs s dp true rv done with
          | GateOut.stop r =>
            have := gate_stop_frame env fs s dp true rv done r hg
            simp [this.1, this.2]
          | GateOut.skip => exact prog_adv fs fuel s done total
          | GateOut.go fs' dp' =>
            by_cases h4 : qExists fs' dp'
            · simp only [h4, Bool.not_true, Bool.false_eq_true, if_false]
              by_cases h5 : qIsDir fs' dp'
              · simp only [h5, Bool.not_true, Bool.false_eq_true, if_false]
                exact prog_children _ _ _ (fun f a b d => ih env f a b d total rv) _ _ _
              · simp [h5]
            · simp only [h4, Bool.false_eq_true, not_false_eq_true, if_true]
              match fsMkdir fs' dp' with
              | none => exact Nat.le_refl done
              | some fs'' =>
                exact prog_children _ _ _ (fun f a b d => ih env f a b d total rv) _ _ _
        · simp only [h3, Bool.false_eq_true, if_false]
          exact prog_copyFile env fuel fs s dp done total rv
    · simp [h1]

theorem prog_pasteLoop : ∀ (srcs : List String) (env : Env) (fuel : Nat)
    (dd : String) (cut : Bool) (rv : Resolver) (total : Nat) (fs : Entry)
    (i : Nat) (per : List Nat) (done : Nat),
    Prog done (pasteLoop env fuel dd cut rv total fs srcs i per done).events
      (pasteLoop env fuel dd cut rv total fs srcs i per done).done := by
  intro srcs
  induction srcs with
  | nil => intro env fuel dd cut rv total fs i per done; exact Nat.le_refl done
  | cons s rest ih =>
    intro env fuel dd cut rv total fs i per done
    rw [pasteLoop]
    by_cases h1 : qExists fs s
    · simp only [h1, Bool.not_true, Bool.false_eq_true, if_false]
      cases cut with
      | false =>
        simp only [Bool.false_eq_true, if_false]
        by_cases h2 : qtCleanPath s = qtCleanPath (qdirFilePath dd (fileName s))
        · simpa [h2] using ih env fuel dd false rv total fs (i + 1) per done
        · simp only [h2, if_false]
          have hc := prog_copyRec fuel env fs s (qdirFilePath dd (fileName s)) done total rv
          by_cases hok : (copyRecursivelyWithProgress env fuel fs s
              (qdirFilePath dd (fileName s)) done total rv).ok
          · simpa [hok] using Prog.append hc (ih env fuel dd false rv total _ (i + 1) per _)
          · simp only [hok, Bool.false_eq_true, if_false]
            by_cases hcan : (copyRecursivelyWithProgress env fuel fs s
                (qdirFilePath dd (fileName s)) done total rv).cancelled
            · simpa [hcan] using hc
            · simpa [hcan] using Prog.append hc (ih env fuel dd false rv total _ (i + 1) per _)
      | true =>
        simp only [if_true]
        rcases hw : ensureWritableTarget env fs s with ⟨wb, werr⟩
        cases wb
        · simpa using ih env fuel dd true rv total fs (i + 1) per done
        · by_cases h2 : qtCleanPath s = qtCleanPath (qdirFilePath dd (fileName s))
          · simpa [h2] using ih env fuel dd true rv total fs (i + 1) per done
          · simp only [h2, if_false]
            rcases hr : (if ¬ qExists fs (qdirFilePath dd (fileName s)) &&
                env.renameOk s (qdirFilePath dd (fileName s))
                then fsRename fs s (qdirFilePath dd (fileName s)) else none) with _ | fs'
            · simp only [hr]
              have hc := prog_copyRec fuel env fs s (qdirFilePath dd (fileName s)) done total rv
              by_cases hok : (copyRecursivelyWithProgress env fuel fs s
                  (qdirFilePath dd (fileName s)) done total rv).ok
              · simp only [hok, if_true]
                rcases hrm : removeRecursivelyM env
                    (copyRecursivelyWithProgress env fuel fs s
                      (qdirFilePath dd (fileName s)) done total rv).fs s with ⟨fs2, rb, e⟩
                cases rb
                · simpa using Prog.append hc (ih env fuel dd true rv total fs2 (i + 1) per _)
                · simpa using Prog.append hc (ih env fuel dd true rv total fs2 (i + 1) per _)
              · simp only [hok, Bool.false_eq_true, if_false]
                by_cases hcan : (copyRecursivelyWithProgress env fuel fs s
                    (qdirFilePath dd (fileName s)) done total rv).cancelled
                · simpa [hcan] using hc
                · simpa [hcan] using Prog.append hc (ih env fuel dd true rv total _ (i + 1) per _)
            · simp only [hr]
              refine ⟨Nat.le_add_right done _, ?_⟩
              exact ih env fuel dd true rv total fs' (i + 1) per _
    · simpa [h1] using ih env fuel dd cut rv total fs (i + 1) per done

/-- C4 (amended): the sequence of doneBytes values handed to the
progress callback over a whole paste run is non-decreasing, starting
from 0 and ending at the run's final doneBytes. (The claim's second
half — that the final doneBytes never exceeds the up-front totalBytes —
is refuted by the counterexample.) -/
theorem claim_C4_progress_monotone (env : Env) (fuel : Nat) (fs0 : Entry)
    (sourcePaths : List String) (destDirInput : String) (isCut : Bool) (rv : Resolver) :
    Prog 0 (pasteRun env fuel fs0 sourcePaths destDirInput isCut rv).events
      (pasteRun env fuel fs0 sourcePaths destDirInput isCut rv).done := by
  unfold pasteRun
  refine ⟨Nat.zero_le _, ?_⟩
  exact Prog.append (prog_pasteLoop sourcePaths env fuel _ isCut rv _ fs0 0 _ 0)
    ⟨Nat.le_refl _, Nat.le_refl _⟩

/-! Claim C6. -/

theorem chunkCharsGo_sum : ∀ (l : List Char) (k : Nat) (cur : List Char),
    ((chunkCharsGo cur k l).map List.length).sum = cur.length + l.length := by
  intro l
  induction l with
  | nil => intro k cur; simp [chunkCharsGo]
  | cons c rest ih =>
    intro k cur
    match k with
    | 0 =>
      rw [chunkCharsGo]
      simp only [List.map_cons, List.sum_cons, ih]
      simp
      omega
    | k + 1 =>
      rw [chunkCharsGo]
      rw [ih]
      simp
      omega


theorem chunkChars_sum (l : List Char) :
    ((chunkChars l).map List.length).sum = l.length := by
  match l with
  | [] => rfl
  | c :: rest =>
    rw [chunkChars, chunkCharsGo_sum]
    simp
    omega

theorem copyChunks_ok (env : Env) (h1 : env.readFailAt = none)
    (h2 : env.writeFailAt = none) (s t : String) (total : Nat) :
    ∀ (l : List (List Char)) (i done : Nat),
      ∃ evs, copyChunks env s t total l i done =
        (evs, done + (l.map List.length).sum, none) := by
  intro l
  induction l with
  | nil => intro i done; exact ⟨[], by simp [copyChunks]⟩
  | cons c rest ih =>
    intro i done
    obtain ⟨evs, hevs⟩ := ih (i + 1) (done + c.length)
    refine ⟨(done + c.length, total) :: evs, ?_⟩
    rw [copyChunks]
    simp only [h1, h2, if_false, hevs]
    simp
    omega

theorem c6_scan (c : String) (fuel : Nat) :
    pasteScan (fsMove c) (fuel + 1) ["/s"] = ([], [c.length], c.length) := by
  have h : totalBytesForPath (fsMove c) (fuel + 1) "/s" = Except.ok c.length := by
    rw [totalBytesForPath]
    rfl
  simp [pasteScan, h]

theorem c6_writ (env : Env) (c : String)
    (hwr : env.writableOk "/s" = true) (hro : env.readOnlyFs "/s" = false) :
    ensureWritableTarget env (fsMove c) "/s" = (true, none) := by
  unfold ensureWritableTarget
  have hne : nearestExistingPath (fsMove c) "/s" = "/s" := rfl
  rw [hne]
  simp [hwr, hro, show blankStr "/s" = false from rfl]

theorem c6_copy (env : Env) (fuel : Nat) (c : String) (rv : Resolver)
    (hnow : env.nowMs = 0) (hrd : env.readFailAt = none) (hwf : env.writeFailAt = none)
    (hren2 : env.renameOk "/d/s.kitaplik-tmp-0" "/d/s" = true) :
    ∃ evs, copyRecursivelyWithProgress env (fuel + 1) (fsMove c) "/s" "/d/s" 0
      c.length rv =
      ⟨Entry.dir [("d", Entry.dir [("s", Entry.file c)]), ("s", Entry.file c)],
        0 + c.data.length, evs, true, false, none⟩ := by
  obtain ⟨evs, hevs⟩ := copyChunks_ok env hrd hwf "/s" "/d/s.kitaplik-tmp-0" c.length
    (chunkChars c.data) 0 0
  rw [chunkChars_sum] at hevs
  refine ⟨evs, ?_⟩
  have hbody : copyFileBody env (fsMove c) "/s" "/d/s" 0 c.length =
      ⟨Entry.dir [("d", Entry.dir [("s", Entry.file c)]), ("s", Entry.file c)],
        0 + c.data.length, evs, true, false, none⟩ := by
    unfold copyFileBody
    simp only [show statEntry (fsMove c) "/s" = some (Entry.file c) from rfl]
    simp only [show tempPathFor env "/d/s" = "/d/s.kitaplik-tmp-0" by
      simp only [tempPathFor, hnow]; rfl]
    simp only [show (lookupSegs (fsMove c) (pathSegs "/d/s.kitaplik-tmp-0")).isSome = false
      from rfl, Bool.false_eq_true, if_false]
    simp only [show fsPut (fsMove c) "/d/s.kitaplik-tmp-0" (Entry.file "")
        = some (Entry.dir [("d", Entry.dir [("s.kitaplik-tmp-0", Entry.file "")]),
            ("s", Entry.file c)]) from rfl]
    rw [hevs]
    simp only [show fsPut (Entry.dir [("d", Entry.dir [("s.kitaplik-tmp-0", Entry.file "")]),
        ("s", Entry.file c)]) "/d/s.kitaplik-tmp-0" (Entry.file c)
        = some (Entry.dir [("d", Entry.dir [("s.kitaplik-tmp-0", Entry.file c)]),
            ("s", Entry.file c)]) from rfl, Option.getD_some]
    simp only [show qExists (Entry.dir [("d", Entry.dir [("s.kitaplik-tmp-0", Entry.file c)]),
        ("s", Entry.file c)]) "/d/s" = false from rfl, Bool.false_eq_true, if_false]
    unfold finalizeRename
    rw [hren2]
    simp only [if_true]
    simp only [show fsRename (Entry.dir [("d", Entry.dir [("s.kitaplik-tmp-0", Entry.file c)]),
        ("s", Entry.file c)]) "/d/s.kitaplik-tmp-0" "/d/s"
        = some (Entry.dir [("d", Entry.dir [("s", Entry.file c)]), ("s", Entry.file c)])
      from rfl]
  rw [copyRecursivelyWithProgress]
  simp only [show qExists (fsMove c) "/s" = true from rfl, Bool.not_true,
    Bool.false_eq_true, if_false,
    show qIsSymLink (fsMove c) "/s" = false from rfl,
    show qIsDir (fsMove c) "/s" = false from rfl]
  unfold copyFileWithProgress
  simp only [show conflictGate env (fsMove c) "/s" "/d/s" false rv 0
      = GateOut.go (fsMove c) "/d/s" by
    unfold conflictGate
    simp [show qExists (fsMove c) "/d/s" = false from rfl]]
  exact hbody

theorem c6_remove (env : Env) (c : String) :
    removeRecursivelyM env
      (Entry.dir [("d", Entry.dir [("s", Entry.file c)]), ("s", Entry.file c)]) "/s" =
      (if env.removeOk "/s"
        then ⟨Entry.dir [("d", Entry.dir [("s", Entry.file c)])], true, none⟩
        else ⟨Entry.dir [("d", Entry.dir [("s", Entry.file c)]), ("s", Entry.file c)],
          false, some ("Failed to delete file: /s")⟩) := by
  unfold removeRecursivelyM
  simp only [show qExists (Entry.dir [("d", Entry.dir [("s", Entry.file c)]),
      ("s", Entry.file c)]) "/s" = true from rfl,
    show qIsSymLink (Entry.dir [("d", Entry.dir [("s", Entry.file c)]),
      ("s", Entry.file c)]) "/s" = false from rfl,
    show qIsDir (Entry.dir [("d", Entry.dir [("s", Entry.file c)]),
      ("s", Entry.file c)]) "/s" = false from rfl]
  by_cases hro2 : env.removeOk "/s"
  · simp [hro2, show fsDel (Entry.dir [("d", Entry.dir [("s", Entry.file c)]),
      ("s", Entry.file c)]) "/s"
        = some (Entry.dir [("d", Entry.dir [("s", Entry.file c)])]) from rfl]
  · simp [hro2]

/-- C6: move semantics of a single-file cut paste of /s into /d. First
conjunct: when the in-place rename succeeds, the file moves and its
scanned byte size is credited to progress in one step. Second conjunct:
when the in-place rename fails (as for a cross-device move), the move
falls back to a recursive copy followed by deletion of the original,
ending in the same final state with no errors. Third conjunct: when
that subsequent deletion fails, the copy remains at the destination,
the source remains in place, and the failure is reported as a
per-source error (and the clipboard is not cleared). -/
theorem claim_C6_move_semantics (env : Env) (fuel : Nat) (c : String) (rv : Resolver)
    (hwr : env.writableOk "/s" = true) (hro : env.readOnlyFs "/s" = false)
    (hnow : env.nowMs = 0) (hrd : env.readFailAt = none) (hwf : env.writeFailAt = none) :
    (env.renameOk "/s" "/d/s" = true →
      pasteRun env (fuel + 1) (fsMove c) ["/s"] "/d" true rv =
        ⟨Entry.dir [("d", Entry.dir [("s", Entry.file c)])], c.length, c.length,
          [(0, c.length), (c.length, c.length), (c.length, c.length)], [], false, true⟩) ∧
    (env.renameOk "/s" "/d/s" = false → env.renameOk "/d/s.kitaplik-tmp-0" "/d/s" = true →
      env.removeOk "/s" = true →
      (pasteRun env (fuel + 1) (fsMove c) ["/s"] "/d" true rv).fs
          = Entry.dir [("d", Entry.dir [("s", Entry.file c)])] ∧
      (pasteRun env (fuel + 1) (fsMove c) ["/s"] "/d" true rv).errors = [] ∧
      (pasteRun env (fuel + 1) (fsMove c) ["/s"] "/d" true rv).done = c.length ∧
      (pasteRun env (fuel + 1) (fsMove c) ["/s"] "/d" true rv).clearClipboard = true) ∧
    (env.renameOk "/s" "/d/s" = false → env.renameOk "/d/s.kitaplik-tmp-0" "/d/s" = true →
      env.removeOk "/s" = false →
      (pasteRun env (fuel + 1) (fsMove c) ["/s"] "/d" true rv).errors
          = ["Failed to delete file: /s"] ∧
      statEntry (pasteRun env (fuel + 1) (fsMove c) ["/s"] "/d" true rv).fs "/d/s"
          = some (Entry.file c) ∧
      statEntry (pasteRun env (fuel + 1) (fsMove c) ["/s"] "/d" true rv).fs "/s"
          = some (Entry.file c) ∧
      (pasteRun env (fuel + 1) (fsMove c) ["/s"] "/d" true rv).clearClipboard = false) := by
  have hdd : normalizePathForFs (fsMove c) env.cwd "/d" = "/d" := rfl
  refine ⟨?_, ?_, ?_⟩
  · intro hren1
    simp only [pasteRun, c6_scan c fuel, hdd]
    rw [pasteLoop]
    simp only [show qExists (fsMove c) "/s" = true from rfl, Bool.not_true,
      Bool.false_eq_true, if_false, if_true, c6_writ env c hwr hro]
    simp only [show qdirFilePath "/d" (fileName "/s") = "/d/s" from rfl]
    simp only [show (qtCleanPath "/s" = qtCleanPath "/d/s") = False from
      eq_false (by decide), if_false]
    simp only [show qExists (fsMove c) "/d/s" = false from rfl, Bool.not_false, hren1,
      Bool.and_self, if_true]
    simp only [show fsRename (fsMove c) "/s" "/d/s"
        = some (Entry.dir [("d", Entry.dir [("s", Entry.file c)])]) from rfl]
    simp [pasteLoop]
  · intro hren1 hren2 hrmv
    obtain ⟨evs, hcopy⟩ := c6_copy env fuel c rv hnow hrd hwf hren2
    simp only [pasteRun, c6_scan c fuel, hdd]
    rw [pasteLoop]
    simp only [show qExists (fsMove c) "/s" = true from rfl, Bool.not_true,
      Bool.false_eq_true, if_false, if_true, c6_writ env c hwr hro]
    simp only [show qdirFilePath "/d" (fileName "/s") = "/d/s" from rfl]
    simp only [show (qtCleanPath "/s" = qtCleanPath "/d/s") = False from
      eq_false (by decide), if_false]
    simp only [show qExists (fsMove c) "/d/s" = false from rfl, Bool.not_false, hren1,
      Bool.and_false, Bool.false_eq_true, if_false]
    rw [hcopy]
    simp only []
    rw [c6_remove env c, hrmv]
    simp [pasteLoop]
  · intro hren1 hren2 hrmv
    obtain ⟨evs, hcopy⟩ := c6_copy env fuel c rv hnow hrd hwf hren2
    simp only [pasteRun, c6_scan c fuel, hdd]
    rw [pasteLoop]
    simp only [show qExists (fsMove c) "/s" = true from rfl, Bool.not_true,
      Bool.false_eq_true, if_false, if_true, c6_writ env c hwr hro]
    simp only [show qdirFilePath "/d" (fileName "/s") = "/d/s" from rfl]
    simp only [show (qtCleanPath "/s" = qtCleanPath "/d/s") = False from
      eq_false (by decide), if_false]
    simp only [show qExists (fsMove c) "/d/s" = false from rfl, Bool.not_false, hren1,
      Bool.and_false, Bool.false_eq_true, if_false]
    rw [hcopy]
    simp only []
    rw [c6_remove env c, hrmv]
    simp [pasteLoop]
    refine ⟨rfl, rfl, rfl⟩

/-- C6: witness — with every OS operation succeeding, the cut paste of
the 5-byte /s into /d is performed by the direct rename with one
progress credit. -/
theorem claim_C6_move_semantics_witness :
    pasteRun envOk 3 (fsMove "hello") ["/s"] "/d" true skipResolver =
      ⟨Entry.dir [("d", Entry.dir [("s", Entry.file "hello")])], 5, 5,
        [(0, 5), (5, 5), (5, 5)], [], false, true⟩ :=
  (claim_C6_move_semantics envOk 2 "hello" skipResolver rfl rfl rfl rfl rfl).1 rfl

/-! Claim C9 support lemmas. -/

theorem findChild_setChild_self (cs : List (String × Entry)) (n : String) (e : Entry) :
    findChild (setChild cs n e) n = some e := by
  induction cs with
  | nil => simp [setChild, findChild]
  | cons hd rest ih =>
    obtain ⟨m, c⟩ := hd
    by_cases h : m = n
    · simp [setChild, findChild, h]
    · simp [setChild, findChild, h, ih]

theorem findChild_setChild_ne (cs : List (String × Entry)) (n m : String) (e : Entry)
    (h : ¬ m = n) : findChild (setChild cs n e) m = findChild cs m := by
  have hnm : ¬ n = m := fun hh => h hh.symm
  induction cs with
  | nil => simp [setChild, findChild, hnm]
  | cons hd rest ih =>
    obtain ⟨k, c⟩ := hd
    by_cases hk : k = n
    · subst hk
      simp [setChild, findChild, hnm]
    · simp only [setChild, if_neg hk, findChild]
      by_cases hkm : k = m
      · simp [hkm]
      · simp [hkm, ih]

theorem findChild_removeChild_ne (cs : List (String × Entry)) (n m : String)
    (h : ¬ m = n) : findChild (removeChild cs n) m = findChild cs m := by
  have hnm : ¬ n = m := fun hh => h hh.symm
  induction cs with
  | nil => simp [removeChild]
  | cons hd rest ih =>
    obtain ⟨k, c⟩ := hd
    by_cases hk : k = n
    · subst hk
      simp [removeChild, findChild, hnm]
    · simp only [removeChild, if_neg hk, findChild]
      by_cases hkm : k = m
      · simp [hkm]
      · simp [hkm, ih]

theorem countName_setChild_self (cs : List (String × Entry)) (n : String) (e : Entry)
    (h : countName cs n = 1) : countName (setChild cs n e) n = 1 := by
  induction cs with
  | nil => simp [countName] at h
  | cons hd rest ih =>
    obtain ⟨m, c⟩ := hd
    by_cases hm : m = n
    · simp [setChild, hm, countName] at h ⊢
      omega
    · simp [setChild, hm, countName] at h ⊢
      exact ih h

theorem countName_setChild_absent (cs : List (String × Entry)) (n : String) (e : Entry)
    (h : countName cs n = 0) : countName (setChild cs n e) n = 1 := by
  induction cs with
  | nil => simp [setChild, countName]
  | cons hd rest ih =>
    obtain ⟨m, c⟩ := hd
    by_cases hm : m = n
    · simp [countName, hm] at h
    · simp [setChild, hm, countName] at h ⊢
      exact ih h

theorem countName_setChild_ne (cs : List (String × Entry)) (n m : String) (e : Entry)
    (h : ¬ m = n) : countName (setChild cs m e) n = countName cs n := by
  have hmn : ¬ m = n := h
  induction cs with
  | nil => simp [setChild, countName, hmn]
  | cons hd rest ih =>
    obtain ⟨k, c⟩ := hd
    by_cases hk : k = m
    · subst hk
      simp [setChild, countName, hmn]
    · simp [setChild, hk, countName, ih]

theorem countName_removeChild_ne (cs : List (String × Entry)) (n m : String)
    (h : ¬ m = n) : countName (removeChild cs m) n = countName cs n := by
  induction cs with
  | nil => simp [removeChild]
  | cons hd rest ih =>
    obtain ⟨k, c⟩ := hd
    by_cases hk : k = m
    · subst hk
      simp [removeChild, countName, h]
    · simp [removeChild, hk, countName, ih]

theorem findChild_none_of_countZero (cs : List (String × Entry)) (n : String)
    (h : countName cs n = 0) : findChild cs n = none := by
  induction cs with
  | nil => rfl
  | cons hd rest ih =>
    obtain ⟨m, c⟩ := hd
    by_cases hm : m = n
    · simp [countName, hm] at h
    · simp [countName, hm] at h
      simp [findChild, hm, ih h]

theorem countZero_of_findChild_none (cs : List (String × Entry)) (n : String)
    (h : findChild cs n = none) : countName cs n = 0 := by
  induction cs with
  | nil => rfl
  | cons hd rest ih =>
    obtain ⟨m, c⟩ := hd
    by_cases hm : m = n
    · simp [findChild, hm] at h
    · simp [findChild, hm] at h
      simp [countName, hm, ih h]

theorem countName_removeChild_one (cs : List (String × Entry)) (n : String)
    (h : countName cs n = 1) : countName (removeChild cs n) n = 0 := by
  induction cs with
  | nil => simp [countName] at h
  | cons hd rest ih =>
    obtain ⟨m, c⟩ := hd
    by_cases hm : m = n
    · simp [countName, hm] at h
      simp [removeChild, hm]
      omega
    · simp [countName, hm] at h
      simp [removeChild, hm, countName, ih h]

theorem findChild_isSome_of_countOne (cs : List (String × Entry)) (n : String)
    (h : countName cs n = 1) : (findChild cs n).isSome = true := by
  induction cs with
  | nil => simp [countName] at h
  | cons hd rest ih =>
    obtain ⟨m, c⟩ := hd
    by_cases hm : m = n
    · simp [findChild, hm]
    · simp [countName, hm] at h
      simp [findChild, hm, ih h]

theorem put_once : ∀ (segs : List String) (fs : Entry) (e fs' : Entry),
    lookupSegs fs segs = none → putEntry fs segs e = some fs' → OnceP fs' segs := by
  intro segs
  induction segs with
  | nil =>
    intro fs e fs' h hp
    cases fs <;> simp [putEntry] at hp
  | cons n rest ih =>
    intro fs e fs' h hp
    match fs with
    | Entry.file c => simp [putEntry] at hp
    | Entry.symlink t => simp [putEntry] at hp
    | Entry.other => simp [putEntry] at hp
    | Entry.dir cs =>
      match rest with
      | [] =>
        simp only [putEntry, Option.some.injEq] at hp
        subst hp
        simp only [lookupSegs] at h
        have h0 : findChild cs n = none := by
          match hf : findChild cs n with
          | none => rfl
          | some c => rw [hf] at h; simp [lookupSegs] at h
        exact countName_setChild_absent cs n e (countZero_of_findChild_none cs n h0)
      | r :: rest2 =>
        simp only [lookupSegs] at h
        match hf : findChild cs n with
        | none => simp [putEntry, hf] at hp
        | some c =>
          rw [hf] at h
          simp only [putEntry, hf, Option.map_eq_some'] at hp
          obtain ⟨c2, hpc, hfs⟩ := hp
          subst hfs
          exact ⟨c2, findChild_setChild_self cs n c2, ih c e c2 h hpc⟩

theorem once_put : ∀ (segs : List String) (fs : Entry) (e : Entry),
    OnceP fs segs → ∃ fs', putEntry fs segs e = some fs' ∧ OnceP fs' segs := by
  intro segs
  induction segs with
  | nil => intro fs e h; cases fs <;> cases h
  | cons n rest ih =>
    intro fs e h
    match fs with
    | Entry.file c => cases h
    | Entry.symlink t => cases h
    | Entry.other => cases h
    | Entry.dir cs =>
      match rest with
      | [] =>
        refine ⟨Entry.dir (setChild cs n e), rfl, ?_⟩
        exact countName_setChild_self cs n e h
      | r :: rest2 =>
        obtain ⟨c, hf, ho⟩ := h
        obtain ⟨c2, hpc, hoc⟩ := ih c e ho
        refine ⟨Entry.dir (setChild cs n c2), ?_, ?_⟩
        · simp only [putEntry, hf, hpc]
          rfl
        · exact ⟨c2, findChild_setChild_self cs n c2, hoc⟩

theorem once_del : ∀ (segs : List String) (fs : Entry),
    OnceP fs segs → ∃ fs', delEntry fs segs = some fs' ∧ lookupSegs fs' segs = none := by
  intro segs
  induction segs with
  | nil => intro fs h; cases fs <;> cases h
  | cons n rest ih =>
    intro fs h
    match fs with
    | Entry.file c => cases h
    | Entry.symlink t => cases h
    | Entry.other => cases h
    | Entry.dir cs =>
      match rest with
      | [] =>
        refine ⟨Entry.dir (removeChild cs n), ?_, ?_⟩
        · simp [delEntry, findChild_isSome_of_countOne cs n h]
        · have h0 := countName_removeChild_one cs n h
          simp [lookupSegs, findChild_none_of_countZero _ _ h0]
      | r :: rest2 =>
        obtain ⟨c, hf, ho⟩ := h
        obtain ⟨c2, hdc, hlc⟩ := ih c ho
        refine ⟨Entry.dir (setChild cs n c2), ?_, ?_⟩
        · simp only [delEntry, hf, hdc]
          rfl
        · simp [lookupSegs, findChild_setChild_self, hlc]

theorem startsSegs_cons_same (a : String) (xs ys : List String) :
    startsSegs (a :: xs) (a :: ys) = startsSegs xs ys := by
  simp [startsSegs]

theorem put_other_once : ∀ (q segs : List String) (fs : Entry) (e fs' : Entry),
    putEntry fs q e = some fs' → startsSegs q segs = false → startsSegs segs q = false →
    OnceP fs segs → OnceP fs' segs := by
  intro q
  induction q with
  | nil =>
    intro segs fs e fs' hp
    cases fs <;> simp [putEntry] at hp
  | cons qn qrest ihq =>
    intro segs fs e fs' hp h1 h2 ho
    match fs with
    | Entry.file c => simp [putEntry] at hp
    | Entry.symlink t => simp [putEntry] at hp
    | Entry.other => simp [putEntry] at hp
    | Entry.dir cs =>
      match segs, ho with
      | [], ho => cases ho
      | sn :: srest, ho =>
        by_cases hqs : qn = sn
        · subst hqs
          match srest, ho with
          | [], ho =>
            match qrest with
            | [] => simp [startsSegs] at h1
            | qr :: qrest2 =>
              match hf : findChild cs qn with
              | none => simp [putEntry, hf] at hp
              | some c =>
                simp only [putEntry, hf, Option.map_eq_some'] at hp
                obtain ⟨c2, hpc, hfs⟩ := hp
                subst hfs
                exact countName_setChild_self cs qn c2 ho
          | sr :: srest2, ho =>
            obtain ⟨c, hf, hoc⟩ := ho
            match qrest with
            | [] => simp [startsSegs] at h1
            | qr :: qrest2 =>
              simp only [putEntry, hf, Option.map_eq_some'] at hp
              obtain ⟨c2, hpc, hfs⟩ := hp
              subst hfs
              refine ⟨c2, findChild_setChild_self cs qn c2, ?_⟩
              rw [startsSegs_cons_same] at h1 h2
              exact ihq (sr :: srest2) c e c2 hpc h1 h2 hoc
        · have hoo : ∀ x, OnceP (Entry.dir (setChild cs qn x)) (sn :: srest) := by
            intro x
            match srest, ho with
            | [], ho =>
              show countName (setChild cs qn x) sn = 1
              rw [countName_setChild_ne cs sn qn x hqs]
              exact ho
            | sr :: srest2, ho =>
              obtain ⟨cc, hff, hoc⟩ := ho
              refine ⟨cc, ?_, hoc⟩
              rw [findChild_setChild_ne cs qn sn x (fun hh => hqs hh.symm)]
              exact hff
          match qrest with
          | [] =>
            simp only [putEntry, Option.some.injEq] at hp
            subst hp
            exact hoo e
          | qr :: qrest2 =>
            match hf : findChild cs qn with
            | none => simp [putEntry, hf] at hp
            | some c =>
              simp only [putEntry, hf, Option.map_eq_some'] at hp
              obtain ⟨c2, hpc, hfs⟩ := hp
              subst hfs
              exact hoo c2

theorem del_other_once : ∀ (q segs : List String) (fs : Entry) (fs' : Entry),
    delEntry fs q = some fs' → startsSegs q segs = false → startsSegs segs q = false →
    OnceP fs segs → OnceP fs' segs := by
  intro q
  induction q with
  | nil =>
    intro segs fs fs' hp
    cases fs <;> simp [delEntry] at hp
  | cons qn qrest ihq =>
    intro segs fs fs' hp h1 h2 ho
    match fs with
    | Entry.file c => simp [delEntry] at hp
    | Entry.symlink t => simp [delEntry] at hp
    | Entry.other => simp [delEntry] at hp
    | Entry.dir cs =>
      match segs, ho with
      | [], ho => cases ho
      | sn :: srest, ho =>
        by_cases hqs : qn = sn
        · subst hqs
          match srest, ho with
          | [], ho =>
            match qrest with
            | [] => simp [startsSegs] at h1
            | qr :: qrest2 =>
              match hf : findChild cs qn with
              | none => simp [delEntry, hf] at hp
              | some c =>
                simp only [delEntry, hf, Option.map_eq_some'] at hp
                obtain ⟨c2, hpc, hfs⟩ := hp
                subst hfs
                exact countName_setChild_self cs qn c2 ho
          | sr :: srest2, ho =>
            obtain ⟨c, hf, hoc⟩ := ho
            match qrest with
            | [] => simp [startsSegs] at h1
            | qr :: qrest2 =>
              simp only [delEntry, hf, Option.map_eq_some'] at hp
              obtain ⟨c2, hpc, hfs⟩ := hp
              subst hfs
              refine ⟨c2, findChild_setChild_self cs qn c2, ?_⟩
              rw [startsSegs_cons_same] at h1 h2
              exact ihq (sr :: srest2) c c2 hpc h1 h2 hoc
        · match qrest with
          | [] =>
            by_cases hfs : (findChild cs qn).isSome
            · simp only [delEntry, hfs, if_true, Option.some.injEq] at hp
              subst hp
              match srest, ho with
              | [], ho =>
                show countName (removeChild cs qn) sn = 1
                rw [countName_removeChild_ne cs sn qn hqs]
                exact ho
              | sr :: srest2, ho =>
                obtain ⟨cc, hff, hoc⟩ := ho
                refine ⟨cc, ?_, hoc⟩
                rw [findChild_removeChild_ne cs qn sn (fun hh => hqs hh.symm)]
                exact hff
            · simp [delEntry, hfs] at hp
          | qr :: qrest2 =>
            match hf : findChild cs qn with
            | none => simp [delEntry, hf] at hp
            | some c =>
              simp only [delEntry, hf, Option.map_eq_some'] at hp
              obtain ⟨c2, hpc, hfs⟩ := hp
              subst hfs
              match srest, ho with
              | [], ho =>
                show countName (setChild cs qn c2) sn = 1
                rw [countName_setChild_ne cs sn qn c2 hqs]
                exact ho
              | sr :: srest2, ho =>
                obtain ⟨cc, hff, hoc⟩ := ho
                refine ⟨cc, ?_, hoc⟩
                rw [findChild_setChild_ne cs qn sn c2 (fun hh => hqs hh.symm)]
                exact hff

theorem put_other_lookup : ∀ (q segs : List String) (fs : Entry) (e fs' : Entry),
    putEntry fs q e = some fs' → startsSegs q segs = false → startsSegs segs q = false →
    lookupSegs fs' segs = lookupSegs fs segs := by
  intro q
  induction q with
  | nil =>
    intro segs fs e fs' hp
    cases fs <;> simp [putEntry] at hp
  | cons qn qrest ihq =>
    intro segs fs e fs' hp h1 h2
    match fs with
    | Entry.file c => simp [putEntry] at hp
    | Entry.symlink t => simp [putEntry] at hp
    | Entry.other => simp [putEntry] at hp
    | Entry.dir cs =>
      match segs with
      | [] => simp [startsSegs] at h2
      | sn :: srest =>
        by_cases hqs : qn = sn
        · subst hqs
          match qrest with
          | [] => simp [startsSegs] at h1
          | qr :: qrest2 =>
            match hf : findChild cs qn with
            | none => simp [putEntry, hf] at hp
            | some c =>
              simp only [putEntry, hf, Option.map_eq_some'] at hp
              obtain ⟨c2, hpc, hfs⟩ := hp
              subst hfs
              match srest with
              | [] => simp [startsSegs] at h2
              | sr :: srest2 =>
                rw [startsSegs_cons_same] at h1 h2
                simp [lookupSegs, findChild_setChild_self, hf,
                  ihq (sr :: srest2) c e c2 hpc h1 h2]
        · have hrw : ∀ x, lookupSegs (Entry.dir (setChild cs qn x)) (sn :: srest) =
              lookupSegs (Entry.dir cs) (sn :: srest) := by
            intro x
            simp [lookupSegs, findChild_setChild_ne cs qn sn x (fun hh => hqs hh.symm)]
          match qrest with
          | [] =>
            simp only [putEntry, Option.some.injEq] at hp
            subst hp
            exact hrw e
          | qr :: qrest2 =>
            match hf : findChild cs qn with
            | none => simp [putEntry, hf] at hp
            | some c =>
              simp only [putEntry, hf, Option.map_eq_some'] at hp
              obtain ⟨c2, hpc, hfs⟩ := hp
              subst hfs
              exact hrw c2

theorem startsSegs_snoc_ne (xs : List String) (a b : String) (h : ¬ a = b) :
    startsSegs (xs ++ [a]) (xs ++ [b]) = false := by
  induction xs with
  | nil => simp [startsSegs, h]
  | cons x rest ih => simp [startsSegs, ih]


theorem lookup_isSome_of_once : ∀ (segs : List String) (fs : Entry),
    OnceP fs segs → (lookupSegs fs segs).isSome = true := by
  intro segs
  induction segs with
  | nil => intro fs h; cases fs <;> cases h
  | cons n rest ih =>
    intro fs h
    match fs with
    | Entry.file c => cases h
    | Entry.symlink t => cases h
    | Entry.other => cases h
    | Entry.dir cs =>
      match rest with
      | [] =>
        have hf := findChild_isSome_of_countOne cs n h
        match hfc : findChild cs n with
        | some c => simp [lookupSegs, hfc]
        | none => rw [hfc] at hf; simp at hf
      | r :: rest2 =>
        obtain ⟨c, hf, ho⟩ := h
        simp only [lookupSegs, hf]
        exact ih c ho

theorem finalizeRename_no_temp (env : Env) (fs : Entry) (tempPath destPath : String)
    (done : Nat) (evs : List (Nat × Nat)) (ds : List String) (dn tn : String)
    (hd : pathSegs destPath = ds ++ [dn])
    (ht : pathSegs tempPath = ds ++ [tn])
    (hne : ¬ tn = dn)
    (ho : OnceP fs (pathSegs tempPath)) :
    lookupSegs (finalizeRename env fs tempPath destPath done evs).fs
      (pathSegs tempPath) = none := by
  obtain ⟨fsd, hdel, hld⟩ := once_del (pathSegs tempPath) fs ho
  have hfd : fsDel fs tempPath = some fsd := hdel
  have hsd : startsSegs (pathSegs destPath) (pathSegs tempPath) = false := by
    rw [hd, ht]
    exact startsSegs_snoc_ne ds dn tn (fun hh => hne hh.symm)
  have hst2 : startsSegs (pathSegs tempPath) (pathSegs destPath) = false := by
    rw [hd, ht]
    exact startsSegs_snoc_ne ds tn dn hne
  cases hrok : env.renameOk tempPath destPath with
  | false =>
    simp only [finalizeRename, hrok, Bool.false_eq_true, if_false, hfd, Option.getD_some]
    exact hld
  | true =>
    rcases hr : fsRename fs tempPath destPath with _ | fs4
    · simp only [finalizeRename, hrok, if_true, hr, hfd, Option.getD_some]
      exact hld
    · simp only [finalizeRename, hrok, if_true, hr]
      rw [fsRename] at hr
      cases hqe : qExists fs destPath with
      | true => rw [hqe] at hr; simp at hr
      | false =>
        rw [hqe] at hr
        simp only [Bool.false_eq_true, if_false] at hr
        have hsome := lookup_isSome_of_once (pathSegs tempPath) fs ho
        rcases hle : lookupSegs fs (pathSegs tempPath) with _ | e
        · rw [hle] at hsome; simp at hsome
        · simp only [hle] at hr
          simp only [hdel] at hr
          rw [put_other_lookup (pathSegs destPath) (pathSegs tempPath) fsd e fs4 hr hsd hst2]
          exact hld

theorem copyFileBody_no_temp (env : Env) (fs : Entry) (srcPath destPath : String)
    (done total : Nat) (ds : List String) (dn tn : String)
    (hd : pathSegs destPath = ds ++ [dn])
    (ht : pathSegs (tempPathFor env destPath) = ds ++ [tn])
    (hne : ¬ tn = dn)
    (h0 : lookupSegs fs (pathSegs (tempPathFor env destPath)) = none) :
    lookupSegs (copyFileBody env fs srcPath destPath done total).fs
      (pathSegs (tempPathFor env destPath)) = none := by
  have hsd : startsSegs (pathSegs destPath) (pathSegs (tempPathFor env destPath)) = false := by
    rw [hd, ht]
    exact startsSegs_snoc_ne ds dn tn (fun hh => hne hh.symm)
  have hst2 : startsSegs (pathSegs (tempPathFor env destPath)) (pathSegs destPath) = false := by
    rw [hd, ht]
    exact startsSegs_snoc_ne ds tn dn hne
  rcases hse : statEntry fs srcPath with _ | e
  · simp only [copyFileBody, hse]
    exact h0
  · match e with
    | Entry.dir cs =>
      simp only [copyFileBody, hse]
      exact h0
    | Entry.symlink t =>
      simp only [copyFileBody, hse]
      exact h0
    | Entry.other =>
      simp only [copyFileBody, hse]
      exact h0
    | Entry.file content =>
      simp only [copyFileBody, hse, h0, Option.isSome_none, Bool.false_eq_true, if_false]
      rcases hput : fsPut fs (tempPathFor env destPath) (Entry.file "") with _ | fs1
      · simp only [hput]
        exact h0
      · simp only [hput]
        have hput2 : putEntry fs (pathSegs (tempPathFor env destPath)) (Entry.file "") =
            some fs1 := hput
        have ho1 : OnceP fs1 (pathSegs (tempPathFor env destPath)) :=
          put_once _ fs (Entry.file "") fs1 h0 hput2
        rcases hcc : copyChunks env srcPath (tempPathFor env destPath) total
            (chunkChars content.data) 0 done with ⟨evs, d1, _ | err⟩
        · simp only [hcc]
          obtain ⟨fs2, hp2, ho2⟩ :=
            once_put (pathSegs (tempPathFor env destPath)) fs1 (Entry.file content) ho1
          have hfp2 : fsPut fs1 (tempPathFor env destPath) (Entry.file content) =
              some fs2 := hp2
          simp only [hfp2, Option.getD_some]
          cases hqe : qExists fs2 destPath with
          | false =>
            simp only [hqe, Bool.false_eq_true, if_false]
            exact finalizeRename_no_temp env fs2 _ destPath d1 evs ds dn tn hd ht hne ho2
          | true =>
            simp only [hqe, if_true]
            cases hrm : env.removeOk destPath with
            | false =>
              simp only [hrm, Bool.false_eq_true, if_false]
              obtain ⟨fsd, hdel, hld⟩ :=
                once_del (pathSegs (tempPathFor env destPath)) fs2 ho2
              have hfd : fsDel fs2 (tempPathFor env destPath) = some fsd := hdel
              simp only [hfd, Option.getD_some]
              exact hld
            | true =>
              simp only [hrm, if_true]
              rcases hdd : fsDel fs2 destPath with _ | fs3
              · simp only [hdd, Option.getD_none]
                exact finalizeRename_no_temp env fs2 _ destPath d1 evs ds dn tn hd ht hne ho2
              · simp only [hdd, Option.getD_some]
                have hdd2 : delEntry fs2 (pathSegs destPath) = some fs3 := hdd
                have ho3 := del_other_once (pathSegs destPath)
                  (pathSegs (tempPathFor env destPath)) fs2 fs3 hdd2 hsd hst2 ho2
                exact finalizeRename_no_temp env fs3 _ destPath d1 evs ds dn tn hd ht hne ho3
        · simp only [hcc]
          obtain ⟨fsd, hdel, hld⟩ :=
            once_del (pathSegs (tempPathFor env destPath)) fs1 ho1
          have hfd : fsDel fs1 (tempPathFor env destPath) = some fsd := hdel
          simp only [hfd, Option.getD_some]
          exact hld

/-- Claim C9: every failure exit of the single-file copy body that can
follow the creation of the temporary file removes it again: whenever the
copy fails, no entry remains at the temporary sibling path (which was
free beforehand), for any destination whose cleaned path and temporary
path are distinct names in the same parent. -/
theorem claim_C9_temp_cleanup (env : Env) (fs : Entry) (srcPath destPath : String)
    (done total : Nat) (ds : List String) (dn tn : String)
    (hd : pathSegs destPath = ds ++ [dn])
    (ht : pathSegs (tempPathFor env destPath) = ds ++ [tn])
    (hne : ¬ tn = dn)
    (h0 : lookupSegs fs (pathSegs (tempPathFor env destPath)) = none)
    (_hfail : (copyFileBody env fs srcPath destPath done total).ok = false) :
    lookupSegs (copyFileBody env fs srcPath destPath done total).fs
      (pathSegs (tempPathFor env destPath)) = none :=
  copyFileBody_no_temp env fs srcPath destPath done total ds dn tn hd ht hne h0

theorem claim_C9_temp_cleanup_witness :
    lookupSegs (copyFileBody envNoFinal (fsMove "hi") "/s" "/d/s" 0 2).fs
      (pathSegs (tempPathFor envNoFinal "/d/s")) = none :=
  claim_C9_temp_cleanup envNoFinal (fsMove "hi") "/s" "/d/s" 0 2 ["d"] "s"
    "s.kitaplik-tmp-0" (by rfl) (by rfl) (by decide) (by rfl) (by rfl)


theorem c5_move (c : String) :
    moveToTrash envOk 10 (fsTrash "g" c) "/data/g" = ⟨fsTrashMid c, true, none⟩ := rfl

theorem c5_restore (c : String) :
    restoreFromTrash envOk 10 (fsTrashMid c) "/home/user/.local/share/Trash/files/g" =
      ⟨fsTrashBack c, true, none⟩ := by
  have h1 : normalizePathForFs (fsTrashMid c) envOk.cwd
      "/home/user/.local/share/Trash/files/g" = "/home/user/.local/share/Trash/files/g" := rfl
  have h2 : isInsideTrashFiles envOk (fsTrashMid c)
      "/home/user/.local/share/Trash/files/g" = true := rfl
  have h2b : fileName "/home/user/.local/share/Trash/files/g" = "g" := rfl
  have h2c : qdirFilePath (trashInfoPath envOk) ("g" ++ ".trashinfo") =
      "/home/user/.local/share/Trash/info/g.trashinfo" := rfl
  have h3 : statEntry (fsTrashMid c) "/home/user/.local/share/Trash/info/g.trashinfo" =
      some (Entry.file "[Trash Info]\nPath=/data/g\nDeletionDate=2024-01-01T00:00:00\n") := rfl
  have h3b : (parsePathLine (splitOnChar (Char.ofNat 10)
      "[Trash Info]\nPath=/data/g\nDeletionDate=2024-01-01T00:00:00\n")).getD "" = "/data/g" := rfl
  have h3c : blankStr "/data/g" = false := rfl
  have h4 : normalizePathForFs (fsTrashMid c) envOk.cwd "/data/g" = "/data/g" := rfl
  have h5 : qExists (fsTrashMid c) "/data/g" = false := rfl
  have h5b : dirName "/data/g" = "/data" := rfl
  have h6 : qIsDir (fsTrashMid c) "/data" = true := rfl
  have h6b : envOk.renameOk "/home/user/.local/share/Trash/files/g" "/data/g" = true := rfl
  have h7 : fsRename (fsTrashMid c) "/home/user/.local/share/Trash/files/g" "/data/g" =
      some (fsTrashMid3 c) := rfl
  have h8 : fsDel (fsTrashMid3 c) "/home/user/.local/share/Trash/info/g.trashinfo" =
      some (fsTrashBack c) := rfl
  rw [restoreFromTrash]
  simp only [h1, h2, h2b, h2c, h3, h3b, h3c, h4, h5, h5b, h6, h6b, h7, h8,
    Option.getD_some, not_true, Bool.false_eq_true, if_true, if_false,
    eq_self_iff_true, not_false_eq_true, ite_true, ite_false]

theorem c5_reput (c c2 : String) :
    (fsPut (fsTrashMid c) "/data/g" (Entry.file c2)).getD (fsTrashMid c) =
      fsTrashMid2 c c2 := rfl

set_option maxHeartbeats 1000000 in
theorem c5_restore2 (c c2 : String) :
    restoreFromTrash envOk 10 (fsTrashMid2 c c2) "/home/user/.local/share/Trash/files/g" =
      ⟨fsTrashBack2 c c2, true, none⟩ := by
  have h1 : normalizePathForFs (fsTrashMid2 c c2) envOk.cwd
      "/home/user/.local/share/Trash/files/g" = "/home/user/.local/share/Trash/files/g" := rfl
  have h2 : isInsideTrashFiles envOk (fsTrashMid2 c c2)
      "/home/user/.local/share/Trash/files/g" = true := rfl
  have h2b : fileName "/home/user/.local/share/Trash/files/g" = "g" := rfl
  have h2c : qdirFilePath (trashInfoPath envOk) ("g" ++ ".trashinfo") =
      "/home/user/.local/share/Trash/info/g.trashinfo" := rfl
  have h3 : statEntry (fsTrashMid2 c c2) "/home/user/.local/share/Trash/info/g.trashinfo" =
      some (Entry.file "[Trash Info]\nPath=/data/g\nDeletionDate=2024-01-01T00:00:00\n") := rfl
  have h3b : (parsePathLine (splitOnChar (Char.ofNat 10)
      "[Trash Info]\nPath=/data/g\nDeletionDate=2024-01-01T00:00:00\n")).getD "" = "/data/g" := rfl
  have h3c : blankStr "/data/g" = false := rfl
  have h4 : normalizePathForFs (fsTrashMid2 c c2) envOk.cwd "/data/g" = "/data/g" := rfl
  have h5 : qExists (fsTrashMid2 c c2) "/data/g" = true := rfl
  have h5u : engineMakeUnique envOk (fsTrashMid2 c c2) "/data/g" = "/data/g (copy)" := rfl
  have h5b : dirName "/data/g (copy)" = "/data" := rfl
  have h6 : qIsDir (fsTrashMid2 c c2) "/data" = true := rfl
  have h6b : envOk.renameOk "/home/user/.local/share/Trash/files/g" "/data/g (copy)" = true := rfl
  have h7 : fsRename (fsTrashMid2 c c2) "/home/user/.local/share/Trash/files/g"
      "/data/g (copy)" = some (fsTrashMid4 c c2) := rfl
  have h8 : fsDel (fsTrashMid4 c c2) "/home/user/.local/share/Trash/info/g.trashinfo" =
      some (fsTrashBack2 c c2) := rfl
  rw [restoreFromTrash]
  simp only [h1]
  simp only [h2, not_true, if_true, if_false, eq_self_iff_true, not_false_eq_true,
    ite_true, ite_false, Bool.false_eq_true]
  simp only [h2b]
  simp only [h2c]
  simp only [h3]
  simp only [h3b]
  simp only [h3c, Bool.false_eq_true, if_false, ite_false]
  simp only [h4]
  simp only [h5, if_true, ite_true]
  simp only [h5u]
  simp only [h5b]
  simp only [h6, if_true, ite_true]
  simp only [h6b, if_true, ite_true]
  simp only [h7]
  simp only [h8, Option.getD_some]

/-- Claim C5: trashing /data/g and then restoring the trashed item
succeeds, reproduces the original content at the original path /data/g,
and leaves no sidecar record behind; when /data/g has been reoccupied
between the trash and the restore, the restored content lands at the
KeepBoth-disambiguated sibling "/data/g (copy)" instead, the occupier is
untouched, and the sidecar record is likewise removed. -/
theorem claim_C5_trash_roundtrip (c c2 : String) :
    (moveToTrash envOk 10 (fsTrash "g" c) "/data/g").ok = true ∧
    ((restoreFromTrash envOk 10 (moveToTrash envOk 10 (fsTrash "g" c) "/data/g").fs
        "/home/user/.local/share/Trash/files/g").ok = true ∧
     statEntry (restoreFromTrash envOk 10 (moveToTrash envOk 10 (fsTrash "g" c) "/data/g").fs
        "/home/user/.local/share/Trash/files/g").fs "/data/g" = some (Entry.file c) ∧
     qExists (restoreFromTrash envOk 10 (moveToTrash envOk 10 (fsTrash "g" c) "/data/g").fs
        "/home/user/.local/share/Trash/files/g").fs
        "/home/user/.local/share/Trash/info/g.trashinfo" = false) ∧
    ((restoreFromTrash envOk 10
        ((fsPut (moveToTrash envOk 10 (fsTrash "g" c) "/data/g").fs "/data/g"
           (Entry.file c2)).getD (moveToTrash envOk 10 (fsTrash "g" c) "/data/g").fs)
        "/home/user/.local/share/Trash/files/g").ok = true ∧
     statEntry (restoreFromTrash envOk 10
        ((fsPut (moveToTrash envOk 10 (fsTrash "g" c) "/data/g").fs "/data/g"
           (Entry.file c2)).getD (moveToTrash envOk 10 (fsTrash "g" c) "/data/g").fs)
        "/home/user/.local/share/Trash/files/g").fs "/data/g (copy)" = some (Entry.file c) ∧
     statEntry (restoreFromTrash envOk 10
        ((fsPut (moveToTrash envOk 10 (fsTrash "g" c) "/data/g").fs "/data/g"
           (Entry.file c2)).getD (moveToTrash envOk 10 (fsTrash "g" c) "/data/g").fs)
        "/home/user/.local/share/Trash/files/g").fs "/data/g" = some (Entry.file c2) ∧
     qExists (restoreFromTrash envOk 10
        ((fsPut (moveToTrash envOk 10 (fsTrash "g" c) "/data/g").fs "/data/g"
           (Entry.file c2)).getD (moveToTrash envOk 10 (fsTrash "g" c) "/data/g").fs)
        "/home/user/.local/share/Trash/files/g").fs
        "/home/user/.local/share/Trash/info/g.trashinfo" = false) := by
  rw [c5_move]
  simp only [c5_reput, c5_restore, c5_restore2]
  refine ⟨?_, ⟨?_, ?_, ?_⟩, ?_, ?_, ?_, ?_⟩ <;> first
    | rfl
    | trivial

theorem splitAux_no_sep (sep : Char) : ∀ (l acc : List Char), sep ∉ acc →
    ∀ s ∈ splitOnCharAux sep l acc, sep ∉ s.data := by
  intro l
  induction l with
  | nil =>
    intro acc hacc s hs
    simp [splitOnCharAux] at hs
    subst hs
    simpa using hacc
  | cons c rest ih =>
    intro acc hacc s hs
    by_cases hc : c = sep
    · subst hc
      simp [splitOnCharAux] at hs
      rcases hs with hs | hs
      · subst hs
        simpa using hacc
      · exact ih [] (by simp) s hs
    · simp [splitOnCharAux, hc] at hs
      refine ih (c :: acc) ?_ s hs
      intro hm
      rcases List.mem_cons.mp hm with hm | hm
      · exact hc hm.symm
      · exact hacc hm

theorem splitSegs_no_sep (x : String) : ∀ s ∈ splitSegs x, '/' ∉ s.data := by
  intro s hs
  exact splitAux_no_sep '/' x.data [] (by simp) s hs

theorem splitAux_pure : ∀ (l acc : List Char), '/' ∉ l →
    splitOnCharAux '/' l acc = [String.mk (acc.reverse ++ l)] := by
  intro l
  induction l with
  | nil => intro acc h; simp [splitOnCharAux]
  | cons c rest ih =>
    intro acc h
    simp at h
    rw [splitOnCharAux]
    rw [if_neg (fun hh => h.1 hh.symm)]
    rw [ih (c :: acc) h.2]
    simp

theorem splitAux_sep_split : ∀ (l tail acc : List Char), '/' ∉ l →
    splitOnCharAux '/' (l ++ '/' :: tail) acc =
      String.mk (acc.reverse ++ l) :: splitOnCharAux '/' tail [] := by
  intro l
  induction l with
  | nil => intro tail acc h; simp [splitOnCharAux]
  | cons c rest ih =>
    intro tail acc h
    simp at h
    rw [List.cons_append, splitOnCharAux]
    rw [if_neg (fun hh => h.1 hh.symm)]
    rw [ih tail (c :: acc) h.2]
    simp

theorem join_split : ∀ (segs : List String) (s : String), (∀ x ∈ segs, '/' ∉ x.data) →
    '/' ∉ s.data → splitOnCharAux '/' (joinSegsChars '/' (s :: segs)) [] = s :: segs := by
  intro segs
  induction segs with
  | nil =>
    intro s _ hs
    rw [joinSegsChars, splitAux_pure s.data [] hs]
    simp
  | cons t rest ih =>
    intro s hmem hs
    show splitOnCharAux '/' (s.data ++ '/' :: joinSegsChars '/' (t :: rest)) [] = s :: t :: rest
    rw [splitAux_sep_split s.data (joinSegsChars '/' (t :: rest)) [] hs]
    rw [ih t (fun x hx => hmem x (List.mem_cons_of_mem t hx)) (hmem t (List.mem_cons_self t rest))]
    simp

theorem splitSegs_renderCanon (segs : List String) (hne : segs ≠ [])
    (hg : ∀ x ∈ segs, '/' ∉ x.data) :
    splitSegs (renderCanon segs) = "" :: segs := by
  match segs, hne with
  | s :: rest, _ =>
    show splitOnCharAux '/' ('/' :: joinSegsChars '/' (s :: rest)) [] = "" :: s :: rest
    rw [splitOnCharAux]
    rw [if_pos rfl]
    rw [join_split rest s (fun x hx => hg x (List.mem_cons_of_mem s hx))
      (hg s (List.mem_cons_self s rest))]
    rfl

theorem cleanSegsGo_pass : ∀ (l stack : List String), (∀ s ∈ l, goodSeg s) →
    cleanSegsGo stack l = stack ++ l := by
  intro l
  induction l with
  | nil => intro stack _; simp [cleanSegsGo]
  | cons s rest ih =>
    intro stack h
    obtain ⟨h1, h2, h3, _⟩ := h s (List.mem_cons_self s rest)
    rw [cleanSegsGo]
    rw [if_neg (by simp [h1, h2])]
    rw [if_neg h3]
    rw [ih (stack ++ [s]) (fun x hx => h x (List.mem_cons_of_mem s hx))]
    simp

theorem cleanSegsGo_good : ∀ (l stack : List String), (∀ s ∈ stack, goodSeg s) →
    (∀ s ∈ l, '/' ∉ s.data) → ∀ s ∈ cleanSegsGo stack l, goodSeg s := by
  intro l
  induction l with
  | nil => intro stack hst _ s hs; exact hst s (by simpa [cleanSegsGo] using hs)
  | cons c rest ih =>
    intro stack hst hl s hs
    rw [cleanSegsGo] at hs
    by_cases h1 : c = "" ∨ c = "."
    · rw [if_pos h1] at hs
      exact ih stack hst (fun x hx => hl x (List.mem_cons_of_mem c hx)) s hs
    · rw [if_neg h1] at hs
      by_cases h2 : c = ".."
      · rw [if_pos h2] at hs
        refine ih stack.dropLast (fun x hx => hst x (List.dropLast_subset _ hx))
          (fun x hx => hl x (List.mem_cons_of_mem c hx)) s hs
      · rw [if_neg h2] at hs
        push_neg at h1
        refine ih (stack ++ [c]) ?_ (fun x hx => hl x (List.mem_cons_of_mem c hx)) s hs
        intro x hx
        rcases List.mem_append.mp hx with hx | hx
        · exact hst x hx
        · simp at hx
          subst hx
          exact ⟨h1.1, h1.2, h2, hl x (List.mem_cons_self x rest)⟩

theorem isAbs_renderCanon (segs : List String) : isAbsStr (renderCanon segs) = true := rfl

theorem blankStr_renderCanon (segs : List String) : blankStr (renderCanon segs) = false := rfl

theorem qtCleanPath_renderCanon (segs : List String) (hg : ∀ s ∈ segs, goodSeg s) :
    qtCleanPath (renderCanon segs) = renderCanon segs := by
  match segs with
  | [] => rfl
  | s :: rest =>
    rw [qtCleanPath, if_pos (isAbs_renderCanon (s :: rest))]
    rw [splitSegs_renderCanon (s :: rest) (by simp) (fun x hx => (hg x hx).2.2.2)]
    show renderCanon (cleanSegsGo [] (s :: rest)) = renderCanon (s :: rest)
    rw [cleanSegsGo_pass (s :: rest) [] hg]
    rfl

theorem absolutize_of_abs (cwd q : String) (h : isAbsStr q = true) :
    absolutize cwd q = q := by
  simp [absolutize, h]

theorem strData_append (a b : String) : (a ++ b).data = a.data ++ b.data := rfl

theorem absolutize_isAbs (cwd p : String) (hcwd : isAbsStr cwd = true) :
    isAbsStr (absolutize cwd p) = true := by
  by_cases hp : isAbsStr p = true
  · rw [absolutize, if_pos hp]
    exact hp
  · rw [absolutize, if_neg (by simp [hp])]
    by_cases hc : cwd = "/"
    · rw [if_pos hc]
      rfl
    · rw [if_neg hc]
      rw [isAbsStr] at hcwd
      split at hcwd
      · rename_i tail heq
        rw [isAbsStr, strData_append, strData_append, heq]
        rfl
      · exact absurd hcwd (by simp)



theorem DirChain_good (fs : Entry) : ∀ (m b : List String), DirChain fs b m →
    ∀ s ∈ m, goodSeg s := by
  intro m
  induction m with
  | nil => intro b _ s hs; simp at hs
  | cons t rest ih =>
    intro b h s hs
    obtain ⟨hg, _, hrest⟩ := h
    rcases List.mem_cons.mp hs with hs | hs
    · subst hs; exact hg
    · exact ih (b ++ [t]) hrest s hs

theorem DirChain_dropLast (fs : Entry) : ∀ (m b : List String), DirChain fs b m →
    DirChain fs b m.dropLast := by
  intro m
  induction m with
  | nil => intro b h; exact h
  | cons s rest ih =>
    intro b h
    obtain ⟨hg, hd, hrest⟩ := h
    match rest, hrest with
    | [], _ => trivial
    | t :: rest2, hrest => exact ⟨hg, hd, ih (b ++ [s]) hrest⟩

theorem DirChain_snoc (fs : Entry) : ∀ (m b : List String) (s : String)
    (cs : List (String × Entry)), DirChain fs b m → goodSeg s →
    lookupSegs fs ((b ++ m) ++ [s]) = some (Entry.dir cs) →
    DirChain fs b (m ++ [s]) := by
  intro m
  induction m with
  | nil =>
    intro b s cs _ hg hl
    exact ⟨hg, ⟨cs, by simpa using hl⟩, trivial⟩
  | cons t rest ih =>
    intro b s cs h hg hl
    obtain ⟨hgt, hdt, hrest⟩ := h
    refine ⟨hgt, hdt, ih (b ++ [t]) s cs hrest hg ?_⟩
    have ha : b ++ t :: rest = (b ++ [t]) ++ rest := by simp
    rw [ha] at hl
    exact hl

theorem DirChain_lookup (fs : Entry) : ∀ (m b : List String), DirChain fs b m →
    m = [] ∨ (lookupSegs fs (b ++ m)).isSome = true := by
  intro m
  induction m with
  | nil => intro b _; exact Or.inl rfl
  | cons t rest ih =>
    intro b h
    obtain ⟨_, ⟨cs, hd⟩, hrest⟩ := h
    refine Or.inr ?_
    rcases ih (b ++ [t]) hrest with hr | hr
    · subst hr
      simp [hd]
    · have ha : b ++ t :: rest = (b ++ [t]) ++ rest := by simp
      rw [ha]
      exact hr

theorem DirChain_resolve (fs : Entry) : ∀ (m b : List String) (fuel : Nat),
    DirChain fs b m → m.length ≤ fuel → resolveSegs fs fuel b m = some (b ++ m) := by
  intro m
  induction m with
  | nil => intro b fuel _ _; simp [resolveSegs]
  | cons s rest ih =>
    intro b fuel hch hlen
    obtain ⟨⟨h1, h2, h3, _⟩, ⟨cs, hd⟩, hrest⟩ := hch
    match fuel, hlen with
    | fuel + 1, hlen =>
      simp only [resolveSegs]
      rw [if_neg (by simp [h1, h2])]
      rw [if_neg h3]
      simp only [hd]
      rw [ih (b ++ [s]) fuel hrest (by simp at hlen; omega)]
      simp

theorem DirChain_resolve_final (fs : Entry) : ∀ (m b : List String) (s : String)
    (e : Entry) (fuel : Nat), DirChain fs b m → goodSeg s →
    lookupSegs fs ((b ++ m) ++ [s]) = some e → notDirSym e = true →
    m.length + 1 ≤ fuel →
    resolveSegs fs fuel b (m ++ [s]) = some ((b ++ m) ++ [s]) := by
  intro m
  induction m with
  | nil =>
    intro b s e fuel _ hg hl hnds hlen
    obtain ⟨h1, h2, h3, _⟩ := hg
    match fuel, hlen with
    | fuel + 1, _ =>
      simp only [List.nil_append, List.append_nil] at hl ⊢
      simp only [resolveSegs]
      rw [if_neg (by simp [h1, h2])]
      rw [if_neg h3]
      cases e with
      | dir cs => simp [notDirSym] at hnds
      | symlink t2 => simp [notDirSym] at hnds
      | file c => simp only [hl]; simp
      | other => simp only [hl]; simp
  | cons t rest ih =>
    intro b s e fuel hch hg hl hnds hlen
    obtain ⟨⟨h1, h2, h3, _⟩, ⟨cs, hd⟩, hrest⟩ := hch
    match fuel, hlen with
    | fuel + 1, hlen =>
      show resolveSegs fs (fuel + 1) b (t :: (rest ++ [s])) = _
      simp only [resolveSegs]
      rw [if_neg (by simp [h1, h2])]
      rw [if_neg h3]
      simp only [hd]
      have ha : (b ++ t :: rest) ++ [s] = ((b ++ [t]) ++ rest) ++ [s] := by simp
      rw [ha] at hl
      rw [ih (b ++ [t]) s e fuel hrest hg hl hnds (by simp at hlen; omega)]
      simp

theorem rs_step_skip (fs : Entry) (fuel : Nat) (b rest : List String) (s : String)
    (h1 : s = "" ∨ s = ".") :
    resolveSegs fs (fuel + 1) b (s :: rest) = resolveSegs fs fuel b rest := by
  simp only [resolveSegs]
  rw [if_pos h1]

theorem rs_step_dd (fs : Entry) (fuel : Nat) (b rest : List String) (s : String)
    (h1 : ¬ (s = "" ∨ s = ".")) (h2 : s = "..") :
    resolveSegs fs (fuel + 1) b (s :: rest) = resolveSegs fs fuel b.dropLast rest := by
  simp only [resolveSegs]
  rw [if_neg h1, if_pos h2]

theorem rs_step_none (fs : Entry) (fuel : Nat) (b rest : List String) (s : String)
    (h1 : ¬ (s = "" ∨ s = ".")) (h2 : ¬ s = "..")
    (hld : lookupSegs fs (b ++ [s]) = none) :
    resolveSegs fs (fuel + 1) b (s :: rest) = none := by
  simp only [resolveSegs]
  rw [if_neg h1, if_neg h2, hld]

theorem rs_step_sym (fs : Entry) (fuel : Nat) (b rest : List String) (s t : String)
    (h1 : ¬ (s = "" ∨ s = ".")) (h2 : ¬ s = "..")
    (hld : lookupSegs fs (b ++ [s]) = some (Entry.symlink t)) :
    resolveSegs fs (fuel + 1) b (s :: rest) =
      if isAbsStr t = true then resolveSegs fs fuel [] (splitSegs t ++ rest)
      else resolveSegs fs fuel b (splitSegs t ++ rest) := by
  simp only [resolveSegs]
  rw [if_neg h1, if_neg h2, hld]

theorem rs_step_dir (fs : Entry) (fuel : Nat) (b rest : List String) (s : String)
    (cs : List (String × Entry)) (h1 : ¬ (s = "" ∨ s = ".")) (h2 : ¬ s = "..")
    (hld : lookupSegs fs (b ++ [s]) = some (Entry.dir cs)) :
    resolveSegs fs (fuel + 1) b (s :: rest) = resolveSegs fs fuel (b ++ [s]) rest := by
  simp only [resolveSegs]
  rw [if_neg h1, if_neg h2, hld]

theorem rs_step_last (fs : Entry) (fuel : Nat) (b rest : List String) (s : String)
    (e : Entry) (h1 : ¬ (s = "" ∨ s = ".")) (h2 : ¬ s = "..")
    (hld : lookupSegs fs (b ++ [s]) = some e) (hnds : notDirSym e = true) :
    resolveSegs fs (fuel + 1) b (s :: rest) =
      if rest = [] then some (b ++ [s]) else none := by
  simp only [resolveSegs]
  rw [if_neg h1, if_neg h2, hld]
  cases e with
  | dir cs => simp [notDirSym] at hnds
  | symlink t => simp [notDirSym] at hnds
  | file c => rfl
  | other => rfl

theorem resolveSegs_len (fs : Entry) : ∀ (fuel : Nat) (segs b out : List String),
    resolveSegs fs fuel b segs = some out → out.length ≤ b.length + fuel := by
  intro fuel
  induction fuel with
  | zero =>
    intro segs b out h
    match segs with
    | [] =>
      simp [resolveSegs] at h
      subst h
      simp
    | s :: rest => simp [resolveSegs] at h
  | succ fuel ih =>
    intro segs b out h
    match segs with
    | [] =>
      simp [resolveSegs] at h
      subst h
      simp
    | s :: rest =>
      by_cases h1 : s = "" ∨ s = "."
      · rw [rs_step_skip fs fuel b rest s h1] at h
        have := ih rest b out h
        omega
      · by_cases h2 : s = ".."
        · rw [rs_step_dd fs fuel b rest s h1 h2] at h
          have := ih rest b.dropLast out h
          have hdl : b.dropLast.length ≤ b.length := by
            rw [List.length_dropLast]
            omega
          omega
        · rcases hld : lookupSegs fs (b ++ [s]) with _ | e
          · rw [rs_step_none fs fuel b rest s h1 h2 hld] at h
            exact absurd h (by simp)
          · cases e with
            | symlink t =>
              rw [rs_step_sym fs fuel b rest s t h1 h2 hld] at h
              by_cases hat : isAbsStr t = true
              · rw [if_pos hat] at h
                have := ih (splitSegs t ++ rest) [] out h
                simp at this
                omega
              · rw [if_neg hat] at h
                have := ih (splitSegs t ++ rest) b out h
                omega
            | dir cs =>
              rw [rs_step_dir fs fuel b rest s cs h1 h2 hld] at h
              have := ih rest (b ++ [s]) out h
              simp at this
              omega
            | file c =>
              rw [rs_step_last fs fuel b rest s (Entry.file c) h1 h2 hld rfl] at h
              by_cases hr : rest = []
              · rw [if_pos hr] at h
                simp at h
                subst h
                simp only [List.length_append, List.length_cons, List.length_nil]
                omega
              · rw [if_neg hr] at h
                exact absurd h (by simp)
            | other =>
              rw [rs_step_last fs fuel b rest s Entry.other h1 h2 hld rfl] at h
              by_cases hr : rest = []
              · rw [if_pos hr] at h
                simp at h
                subst h
                simp only [List.length_append, List.length_cons, List.length_nil]
                omega
              · rw [if_neg hr] at h
                exact absurd h (by simp)

theorem resolveSegs_shape (fs : Entry) : ∀ (fuel : Nat) (segs b out : List String),
    DirChain fs [] b → (∀ s ∈ segs, '/' ∉ s.data) →
    resolveSegs fs fuel b segs = some out → CanonOut fs out := by
  intro fuel
  induction fuel with
  | zero =>
    intro segs b out hb hseg h
    match segs with
    | [] =>
      simp [resolveSegs] at h
      subst h
      exact Or.inl hb
    | s :: rest => simp [resolveSegs] at h
  | succ fuel ih =>
    intro segs b out hb hseg h
    match segs with
    | [] =>
      simp [resolveSegs] at h
      subst h
      exact Or.inl hb
    | s :: rest =>
      by_cases h1 : s = "" ∨ s = "."
      · rw [rs_step_skip fs fuel b rest s h1] at h
        exact ih rest b out hb (fun x hx => hseg x (List.mem_cons_of_mem s hx)) h
      · by_cases h2 : s = ".."
        · rw [rs_step_dd fs fuel b rest s h1 h2] at h
          exact ih rest b.dropLast out (DirChain_dropLast fs b [] hb)
            (fun x hx => hseg x (List.mem_cons_of_mem s hx)) h
        · have h1p := h1
          push_neg at h1p
          have hgs : goodSeg s := ⟨h1p.1, h1p.2, h2, hseg s (List.mem_cons_self s rest)⟩
          rcases hld : lookupSegs fs (b ++ [s]) with _ | e
          · rw [rs_step_none fs fuel b rest s h1 h2 hld] at h
            exact absurd h (by simp)
          · cases e with
            | symlink t =>
              rw [rs_step_sym fs fuel b rest s t h1 h2 hld] at h
              by_cases hat : isAbsStr t = true
              · rw [if_pos hat] at h
                refine ih (splitSegs t ++ rest) [] out trivial ?_ h
                intro x hx
                rcases List.mem_append.mp hx with hx | hx
                · exact splitSegs_no_sep t x hx
                · exact hseg x (List.mem_cons_of_mem s hx)
              · rw [if_neg hat] at h
                refine ih (splitSegs t ++ rest) b out hb ?_ h
                intro x hx
                rcases List.mem_append.mp hx with hx | hx
                · exact splitSegs_no_sep t x hx
                · exact hseg x (List.mem_cons_of_mem s hx)
            | dir cs =>
              rw [rs_step_dir fs fuel b rest s cs h1 h2 hld] at h
              refine ih rest (b ++ [s]) out ?_
                (fun x hx => hseg x (List.mem_cons_of_mem s hx)) h
              exact DirChain_snoc fs b [] s cs hb hgs (by simpa using hld)
            | file c =>
              rw [rs_step_last fs fuel b rest s (Entry.file c) h1 h2 hld rfl] at h
              by_cases hr : rest = []
              · rw [if_pos hr] at h
                simp at h
                subst h
                exact Or.inr ⟨b, s, Entry.file c, rfl, hb, hgs, hld, rfl⟩
              · rw [if_neg hr] at h
                exact absurd h (by simp)
            | other =>
              rw [rs_step_last fs fuel b rest s Entry.other h1 h2 hld rfl] at h
              by_cases hr : rest = []
              · rw [if_pos hr] at h
                simp at h
                subst h
                exact Or.inr ⟨b, s, Entry.other, rfl, hb, hgs, hld, rfl⟩
              · rw [if_neg hr] at h
                exact absurd h (by simp)

theorem shape_good (fs : Entry) (out : List String) (hc : CanonOut fs out) :
    ∀ s ∈ out, goodSeg s := by
  rcases hc with hch | ⟨m, s, e, rfl, hch, hg, _, _⟩
  · exact DirChain_good fs out [] hch
  · intro x hx
    rcases List.mem_append.mp hx with hx | hx
    · exact DirChain_good fs m [] hch x hx
    · simp at hx
      subst hx
      exact hg

theorem shape_resolve (fs : Entry) (out : List String) (hc : CanonOut fs out)
    (hlen : out.length ≤ 4095) : resolveSegs fs 4095 [] out = some out := by
  rcases hc with hch | ⟨m, s, e, rfl, hch, hg, hl, hnds⟩
  · have := DirChain_resolve fs out [] 4095 hch hlen
    simpa using this
  · have := DirChain_resolve_final fs m [] s e 4095 hch hg (by simpa using hl) hnds
      (by simp at hlen ⊢; omega)
    simpa using this

theorem shape_lookup (fs : Entry) (out : List String) (hc : CanonOut fs out) :
    (lookupSegs fs out).isSome = true := by
  rcases hc with hch | ⟨m, s, e, rfl, _, _, hl, _⟩
  · rcases DirChain_lookup fs out [] hch with h | h
    · subst h
      cases fs <;> rfl
    · simpa using h
  · simp [hl]

theorem resolve_renderCanon (fs : Entry) (segs : List String)
    (hg : ∀ s ∈ segs, goodSeg s) :
    resolveSegs fs maxLinks [] (splitSegs (renderCanon segs)) =
      resolveSegs fs 4095 [] segs := by
  match segs with
  | [] => rfl
  | s :: rest =>
    rw [splitSegs_renderCanon (s :: rest) (by simp) (fun x hx => (hg x hx).2.2.2)]
    rfl

/-- Claim C8: normalizePathForFs is idempotent: for every filesystem,
absolute working directory and path, normalizing an already-normalized
path returns it unchanged, both when it resolves to a canonical existing
path and when the cleaned best-effort form is used. -/
theorem claim_C8_normalize_idempotent (fs : Entry) (cwd p : String)
    (hcwd : isAbsStr cwd = true) :
    normalizePathForFs fs cwd (normalizePathForFs fs cwd p) =
      normalizePathForFs fs cwd p := by
  have habs : isAbsStr (absolutize cwd p) = true := absolutize_isAbs cwd p hcwd
  have hgood : ∀ s ∈ cleanSegsGo [] (splitSegs (absolutize cwd p)), goodSeg s :=
    cleanSegsGo_good (splitSegs (absolutize cwd p)) [] (by simp)
      (splitSegs_no_sep (absolutize cwd p))
  have hclean : qtCleanPath (absolutize cwd p) =
      renderCanon (cleanSegsGo [] (splitSegs (absolutize cwd p))) := by
    rw [qtCleanPath, if_pos habs]
  set c1 := cleanSegsGo [] (splitSegs (absolutize cwd p)) with hc1
  have houter : ∀ r : String, isAbsStr r = true → qtCleanPath r = r →
      normalizePathForFs fs cwd r =
        if qExists fs r then
          (if ¬ blankStr (canonicalFilePath fs r) then canonicalFilePath fs r else r)
        else r := by
    intro r h1 h2
    simp only [normalizePathForFs]
    rw [absolutize_of_abs cwd r h1, h2]
  have hinner : normalizePathForFs fs cwd p =
      if qExists fs (renderCanon c1) then
        (if ¬ blankStr (canonicalFilePath fs (renderCanon c1))
         then canonicalFilePath fs (renderCanon c1) else renderCanon c1)
      else renderCanon c1 := by
    simp only [normalizePathForFs]
    rw [hclean]
  rcases hstate : resolveSegs fs 4095 [] c1 with _ | out
  · have hstat : statEntry fs (renderCanon c1) = none := by
      rw [statEntry, resolve_renderCanon fs c1 hgood, hstate]
    have hex : qExists fs (renderCanon c1) = false := by
      rw [qExists, hstat]
      rfl
    rw [hinner, if_neg (by simp [hex])]
    rw [houter (renderCanon c1) (isAbs_renderCanon c1) (qtCleanPath_renderCanon c1 hgood)]
    rw [if_neg (by simp [hex])]
  · have hcanonout : CanonOut fs out := resolveSegs_shape fs 4095 c1 [] out trivial
      (fun x hx => (hgood x hx).2.2.2) hstate
    have hlen : out.length ≤ 4095 := by
      have := resolveSegs_len fs 4095 c1 [] out hstate
      simpa using this
    have hgoodout : ∀ s ∈ out, goodSeg s := shape_good fs out hcanonout
    have hlook : (lookupSegs fs out).isSome = true := shape_lookup fs out hcanonout
    have hstat1 : statEntry fs (renderCanon c1) = lookupSegs fs out := by
      rw [statEntry, resolve_renderCanon fs c1 hgood, hstate]
    have hex1 : qExists fs (renderCanon c1) = true := by
      rw [qExists, hstat1]
      exact hlook
    have hcanon1 : canonicalFilePath fs (renderCanon c1) = renderCanon out := by
      rw [canonicalFilePath, resolve_renderCanon fs c1 hgood, hstate]
    have hres2 : resolveSegs fs maxLinks [] (splitSegs (renderCanon out)) = some out := by
      rw [resolve_renderCanon fs out hgoodout]
      exact shape_resolve fs out hcanonout hlen
    have hstat2 : statEntry fs (renderCanon out) = lookupSegs fs out := by
      rw [statEntry, hres2]
    have hex2 : qExists fs (renderCanon out) = true := by
      rw [qExists, hstat2]
      exact hlook
    have hcanon2 : canonicalFilePath fs (renderCanon out) = renderCanon out := by
      rw [canonicalFilePath, hres2]
    rw [hinner, if_pos hex1, hcanon1, if_pos (by simp [blankStr_renderCanon])]
    rw [houter (renderCanon out) (isAbs_renderCanon out) (qtCleanPath_renderCanon out hgoodout)]
    rw [if_pos hex2, hcanon2, if_pos (by simp [blankStr_renderCanon])]

theorem claim_C8_normalize_idempotent_witness :
    isAbsStr "/" = true ∧
    normalizePathForFs fsSymCex "/" (normalizePathForFs fsSymCex "/" "/l") =
      normalizePathForFs fsSymCex "/" "/l" :=
  ⟨by rfl, claim_C8_normalize_idempotent fsSymCex "/" "/l" (by rfl)⟩

end Kitaplik
